import Mathlib

/-!
Shallow embedding of the `cocomerge` dataset-merge tool of the cococrawl
repository (source files `src/bin/cocomerge.rs` and `src/lib.rs`).

Modelling conventions:
* Rust `i32`/`i64` ids are modelled as `Int` (the merge only compares ids and
  increments counters; no arithmetic wraps around for realistic inputs).
* Rust `String`/`PathBuf` are `String`; Unix path semantics (`is_absolute`,
  `parent`, `join`) are modelled for slash-separated paths without trailing
  slashes.
* Float payload fields that the merge clones verbatim and never inspects
  (bbox, area, segmentation, keypoints, iscrowd, dp arrays, flickr/coco urls,
  dates) are collapsed into an opaque `rest : Nat` field that is carried
  through unchanged, exactly as the Rust code clones them.
* `HashMap::insert` is modelled by consing onto an association list looked up
  front-to-back (so a later insert of the same key shadows the earlier one,
  matching overwrite semantics), `HashSet<i32/i64>` of ids by a `List Int`,
  and `HashSet<CocoCategory/CocoLicense>` by the list of stored elements in
  insertion order, with `get` modelled as lookup by the Rust `PartialEq`
  (which ignores `id`), as documented by the comment in `cocomerge.rs`
  ("Categories don't hash on id but instead they hash on the everything else
  in the struct").
* `expect`/panics during reconciliation are modelled by `Except MergeError`;
  the merged output file exists only in the `.ok` case, matching the fact
  that `cocomerge` writes its output only after the whole loop finishes.
* `eprintln!` warnings for dropped images are modelled by accumulating
  `(file path, image id)` pairs in the state.
-/

/-- Unix `Path::is_absolute`: the path starts with the separator. -/
def pathIsAbsolute (p : String) : Bool :=
  match p.toList with
  | [] => false
  | c :: _ => c == '/'

/-- Whether a path string ends with the separator (used by `pathJoin` to
avoid doubling it). -/
def endsWithSlash (p : String) : Bool :=
  match p.toList.reverse with
  | [] => false
  | c :: _ => c == '/'

/-- Unix `Path::parent`: `none` for `""` and `"/"`, otherwise the path with
its last component removed (`""` when there is no separator). -/
def pathParent (p : String) : Option String :=
  if p = "" ∨ p = "/" then none
  else
    match (p.toList.reverse.dropWhile (fun c => c ≠ '/')) with
    | [] => some ""
    | [_] => some "/"
    | _ :: tail => some (String.mk tail.reverse)

/-- Unix `Path::join` as used by the merge (the second component is only
joined when relative; an absolute second component replaces the first). -/
def pathJoin (p q : String) : String :=
  if pathIsAbsolute q then q
  else if p = "" then q
  else if endsWithSlash p then p ++ q
  else p ++ "/" ++ q

/-- Association-list lookup, front to back (model of `HashMap::get` where
`HashMap::insert` conses onto the front). -/
def rlookup : List (Int × Int) → Int → Option Int
  | [], _ => none
  | (k, v) :: rest, key => if key = k then some v else rlookup rest key

-- Data model (src/lib.rs) ---------------------------------------------------

/-- `CocoImage` (lib.rs). `rest` stands for the cloned-through payload
(`flickr_url`, `coco_url`, `date_captured`). -/
structure CocoImage where
  id : Int
  width : Nat
  height : Nat
  file_name : String
  license : Option Int
  rest : Nat
deriving DecidableEq, Repr

/-- `CocoLicense` (lib.rs). -/
structure CocoLicense where
  id : Int
  name : String
  url : String
deriving DecidableEq, Repr

/-- Rust `PartialEq for CocoLicense`: id is ignored. -/
def licStructEq (a b : CocoLicense) : Bool :=
  a.name == b.name && a.url == b.url

/-- `CocoObjectDetectionCategory` (lib.rs). -/
structure CocoObjectDetectionCategory where
  id : Int
  name : String
  supercategory : String
deriving DecidableEq, Repr

/-- `CocoKeypointDetectionCategory` (lib.rs). -/
structure CocoKeypointDetectionCategory where
  id : Int
  name : String
  supercategory : String
  keypoints : List String
  skeleton : List (Nat × Nat)
deriving DecidableEq, Repr

/-- `CocoPanopticSegmentationCategory` (lib.rs). -/
structure CocoPanopticSegmentationCategory where
  id : Int
  name : String
  supercategory : String
  isthing : Bool
  color : Nat × Nat × Nat
deriving DecidableEq, Repr

/-- `CocoCategory` (lib.rs), tagged union of the three category shapes. -/
inductive CocoCategory where
  | KeypointDetection (c : CocoKeypointDetectionCategory)
  | PanopticSegmentation (c : CocoPanopticSegmentationCategory)
  | ObjectDetection (c : CocoObjectDetectionCategory)
deriving DecidableEq, Repr

/-- `HasID::id` for `CocoCategory`. -/
def CocoCategory.cid : CocoCategory → Int
  | .KeypointDetection c => c.id
  | .PanopticSegmentation c => c.id
  | .ObjectDetection c => c.id

/-- `HasID::set_id` for `CocoCategory`. -/
def CocoCategory.setId : CocoCategory → Int → CocoCategory
  | .KeypointDetection c, n => .KeypointDetection { c with id := n }
  | .PanopticSegmentation c, n => .PanopticSegmentation { c with id := n }
  | .ObjectDetection c, n => .ObjectDetection { c with id := n }

/-- Rust `PartialEq for CocoCategory` (derived on the enum, delegating to the
per-variant impls, each of which ignores `id`; different variants are never
equal). -/
def catStructEq : CocoCategory → CocoCategory → Bool
  | .ObjectDetection a, .ObjectDetection b =>
      a.supercategory == b.supercategory && a.name == b.name
  | .KeypointDetection a, .KeypointDetection b =>
      (a.supercategory == b.supercategory && a.name == b.name) &&
      a.keypoints == b.keypoints && a.skeleton == b.skeleton
  | .PanopticSegmentation a, .PanopticSegmentation b =>
      (a.supercategory == b.supercategory && a.name == b.name) &&
      a.isthing == b.isthing && a.color == b.color
  | _, _ => false

/-- `CocoObjectDetectionAnnotation` (lib.rs); `rest` is the cloned-through
payload (segmentation, area, bbox, iscrowd). -/
structure CocoObjectDetectionAnn where
  id : Int
  image_id : Int
  category_id : Int
  rest : Nat
deriving DecidableEq, Repr

/-- `CocoKeypointDetectionAnnotation` (lib.rs); `rest` is the cloned-through
payload (segmentation, area, bbox, iscrowd, keypoints, num_keypoints). -/
structure CocoKeypointDetectionAnn where
  id : Int
  image_id : Int
  category_id : Int
  rest : Nat
deriving DecidableEq, Repr

/-- `CocoPanopticSegmentInfo` (lib.rs); `rest` is the cloned-through payload
(area, bbox, iscrowd). -/
structure CocoPanopticSegmentInfo where
  id : Int
  category_id : Int
  rest : Nat
deriving DecidableEq, Repr

/-- `CocoPanopticSegmentationAnnotation` (lib.rs); carries no own id. -/
structure CocoPanopticSegmentationAnn where
  image_id : Int
  file_name : String
  segments_info : List CocoPanopticSegmentInfo
deriving DecidableEq, Repr

/-- `CocoImageCaptioningAnnotation` (lib.rs). -/
structure CocoImageCaptioningAnn where
  id : Int
  image_id : Int
  caption : String
deriving DecidableEq, Repr

/-- `CocoDensePoseAnnotation` (lib.rs); `rest` is the cloned-through payload
(iscrowd, area, bbox, dp arrays, dp_masks). -/
structure CocoDensePoseAnn where
  id : Int
  image_id : Int
  category_id : Int
  rest : Nat
deriving DecidableEq, Repr

/-- `CocoAnnotation` (lib.rs), tagged union of the five annotation shapes. -/
inductive CocoAnn where
  | KeypointDetection (a : CocoKeypointDetectionAnn)
  | PanopticSegmentation (a : CocoPanopticSegmentationAnn)
  | ImageCaptioning (a : CocoImageCaptioningAnn)
  | ObjectDetection (a : CocoObjectDetectionAnn)
  | DensePose (a : CocoDensePoseAnn)
deriving DecidableEq, Repr

/-- `CocoAnnotation::image_id` (lib.rs). -/
def CocoAnn.imageId : CocoAnn → Int
  | .KeypointDetection a => a.image_id
  | .PanopticSegmentation a => a.image_id
  | .ImageCaptioning a => a.image_id
  | .ObjectDetection a => a.image_id
  | .DensePose a => a.image_id

/-- `CocoFile` (lib.rs); the `info` block is not modelled (the merge never
reads it and writes a fresh one). -/
structure CocoFile where
  images : List CocoImage
  annotations : List CocoAnn
  categories : Option (List CocoCategory)
  licenses : Option (List CocoLicense)
deriving DecidableEq, Repr

-- Merge errors (panics in cocomerge.rs) -------------------------------------

/-- The `expect`/`unwrap` panics that can abort the merge loop. -/
inductive MergeError where
  | licenseNotFound (license_id : Int) (image_id : Int) (path : String)
  | categoryNotFound (category_id : Int) (ann_id : Int) (path : String)
  | segmentCategoryNotFound (category_id : Int) (segment_id : Int) (path : String)
  | pathParentNone (path : String)
deriving DecidableEq, Repr

/-- True exactly on `Except.error`. -/
def exceptIsError : Except MergeError α → Bool
  | .error _ => true
  | .ok _ => false

/-- Decidable equality for `Except`, used to evaluate merge runs on concrete
inputs. -/
instance [DecidableEq ε] [DecidableEq α] : DecidableEq (Except ε α) := fun x y =>
  match x, y with
  | .error a, .error b => decidable_of_iff (a = b) (by simp)
  | .error _, .ok _ => isFalse (fun h => Except.noConfusion h)
  | .ok _, .error _ => isFalse (fun h => Except.noConfusion h)
  | .ok a, .ok b => decidable_of_iff (a = b) (by simp)

-- Category / license reconciliation (cocomerge.rs lines 56-126) -------------

/-- Running state of one dedup namespace: the canonical set (in insertion
order), the claimed-id set and the `next_unseen_*_id` counter. -/
structure ReconState (α : Type) where
  set : List α
  seen : List Int
  next : Int
deriving DecidableEq, Repr

/-- One iteration of the category/license loop of cocomerge.rs (the two
blocks are line-for-line identical up to the entity type, as the generic
parameters make explicit). -/
def reconcileStep (structEq : α → α → Bool) (getId : α → Int) (setId : α → Int → α)
    (st : ReconState α) (remap : List (Int × Int)) (c : α) :
    ReconState α × List (Int × Int) :=
  match st.set.find? (fun e => structEq e c) with
  | some entry =>
      -- entity already exists structurally so we use the existing id
      (st, (getId c, getId entry) :: remap)
  | none =>
      if getId c ∈ st.seen then
        -- not seen yet and its id clashes with an existing entity
        let newc := setId c st.next
        ({ st with set := st.set ++ [newc], next := st.next + 1 },
          (getId c, getId newc) :: remap)
      else
        -- not seen yet and its id does not clash
        ({ set := st.set ++ [c],
           seen := getId c :: st.seen,
           next := if getId c ≥ st.next then getId c + 1 else st.next },
          (getId c, getId c) :: remap)

/-- The category/license loop over one file's list. -/
def reconcileList (structEq : α → α → Bool) (getId : α → Int) (setId : α → Int → α) :
    ReconState α → List (Int × Int) → List α → ReconState α × List (Int × Int)
  | st, remap, [] => (st, remap)
  | st, remap, c :: cs =>
      let p := reconcileStep structEq getId setId st remap c
      reconcileList structEq getId setId p.1 p.2 cs

/-- Categories logic of cocomerge.rs (lines 76-100); a missing `categories`
array contributes nothing and yields an empty remap. -/
def processCategories (st : ReconState CocoCategory) :
    Option (List CocoCategory) → ReconState CocoCategory × List (Int × Int)
  | none => (st, [])
  | some cs => reconcileList catStructEq CocoCategory.cid CocoCategory.setId st [] cs

/-- `HasID` accessors for licenses, used generically. -/
def CocoLicense.lid (l : CocoLicense) : Int := l.id

/-- `HasID::set_id` for licenses. -/
def CocoLicense.setId (l : CocoLicense) (n : Int) : CocoLicense := { l with id := n }

/-- Licenses logic of cocomerge.rs (lines 102-126). -/
def processLicenses (st : ReconState CocoLicense) :
    Option (List CocoLicense) → ReconState CocoLicense × List (Int × Int)
  | none => (st, [])
  | some ls => reconcileList licStructEq CocoLicense.lid CocoLicense.setId st [] ls

-- Image reconciliation (cocomerge.rs lines 128-178) --------------------------

/-- Running image state: accumulated output images, the global seen-id set,
the `next_unseen_image_id` counter and the emitted warnings. -/
structure ImgState where
  images : List CocoImage
  seen : List Int
  next : Int
  warnings : List (String × Int)
deriving DecidableEq, Repr

/-- The file-path rewrite of the images loop (cocomerge.rs lines 133-141):
an absolute `file_name` is kept, a relative one is joined onto the parent
directory of the source file path (`unwrap` panics when the path has no
parent). -/
def resolveFileName (path : String) (fn : String) : Except MergeError String :=
  if pathIsAbsolute fn then .ok fn
  else
    match pathParent path with
    | none => .error (.pathParentNone path)
    | some par => .ok (pathJoin par fn)

/-- The license rewrite of the images loop (cocomerge.rs lines 143-153):
a missing `license` field passes through, a present one must resolve in the
file's license remap (`expect` panics otherwise). -/
def resolveLicense (licRemap : List (Int × Int)) (path : String) (img : CocoImage) :
    Except MergeError (Option Int) :=
  match img.license with
  | none => .ok none
  | some l =>
      match rlookup licRemap l with
      | none => .error (.licenseNotFound l img.id path)
      | some v => .ok (some v)

/-- One iteration of the images loop of cocomerge.rs: resolve the file path,
remap the license reference (`expect` on a miss), then resolve the id
collision (reassign, or drop with a warning). -/
def processImage (reassign : Bool) (path : String) (licRemap : List (Int × Int))
    (st : ImgState) (remap : List (Int × Int)) (img : CocoImage) :
    Except MergeError (ImgState × List (Int × Int)) :=
  match resolveFileName path img.file_name with
  | .error e => .error e
  | .ok fn =>
    match resolveLicense licRemap path img with
    | .error e => .error e
    | .ok lic =>
      let newImg : CocoImage := { img with file_name := fn, license := lic }
      if img.id ∈ st.seen then
        if reassign then
          .ok ({ st with
                   images := st.images ++ [{ newImg with id := st.next }],
                   seen := st.next :: st.seen,
                   next := st.next + 1 },
                (img.id, st.next) :: remap)
        else
          -- ignore clashing image, warn
          .ok ({ st with warnings := st.warnings ++ [(path, img.id)] }, remap)
      else
        .ok ({ st with
                 images := st.images ++ [newImg],
                 seen := newImg.id :: st.seen,
                 next := if newImg.id ≥ st.next then newImg.id + 1 else st.next },
              (img.id, newImg.id) :: remap)

/-- The images loop over one file's list. -/
def processImages (reassign : Bool) (path : String) (licRemap : List (Int × Int)) :
    ImgState → List (Int × Int) → List CocoImage →
    Except MergeError (ImgState × List (Int × Int))
  | st, remap, [] => .ok (st, remap)
  | st, remap, img :: imgs =>
      match processImage reassign path licRemap st remap img with
      | .error e => .error e
      | .ok p => processImages reassign path licRemap p.1 p.2 imgs

-- Annotation reconciliation (cocomerge.rs lines 180-297) ----------------------

/-- Running annotation state: the accumulated output list, the single global
set of used annotation/segment ids and the `next_unseen_annotation_id`
counter. -/
structure AnnState where
  annotations : List CocoAnn
  seen : List Int
  next : Int
deriving DecidableEq, Repr

/-- The id-collision resolution block repeated for every annotation variant
and for panoptic segments (cocomerge.rs lines 200-209 etc.): on a clash the
id is always reassigned from the counter; otherwise it is kept and the
counter advanced past it.  Returns the final id, the new seen set and the
new counter. -/
def resolveId (seen : List Int) (next : Int) (i : Int) : Int × List Int × Int :=
  if i ∈ seen then (next, next :: seen, next + 1)
  else (i, i :: seen, if i ≥ next then i + 1 else next)

/-- The `segments_info` loop of a panoptic annotation: remap each segment's
category (`expect` on a miss), then resolve its id against the shared
annotation/segment namespace. -/
def processSegments (path : String) (catRemap : List (Int × Int)) :
    List CocoPanopticSegmentInfo → List Int → Int →
    Except MergeError (List CocoPanopticSegmentInfo × List Int × Int)
  | [], seen, next => .ok ([], seen, next)
  | seg :: segs, seen, next =>
      match rlookup catRemap seg.category_id with
      | none => .error (.segmentCategoryNotFound seg.category_id seg.id path)
      | some newCat =>
          let r := resolveId seen next seg.id
          match processSegments path catRemap segs r.2.1 r.2.2 with
          | .error e => .error e
          | .ok (rest, seen', next') =>
              .ok ({ seg with category_id := newCat, id := r.1 } :: rest, seen', next')

/-- One iteration of the annotations loop of cocomerge.rs: skip silently when
the image was dropped, otherwise retarget the image id, remap the category
reference(s) (`expect` on a miss) and resolve the annotation/segment id(s)
in the shared namespace, then push the reconciled annotation. -/
def processOneAnn (path : String) (catRemap imgRemap : List (Int × Int))
    (st : AnnState) (a : CocoAnn) : Except MergeError AnnState :=
  match rlookup imgRemap a.imageId with
  | none => .ok st
  | some newImgId =>
    match a with
    | .KeypointDetection ann =>
        match rlookup catRemap ann.category_id with
        | none => .error (.categoryNotFound ann.category_id ann.id path)
        | some newCat =>
            let r := resolveId st.seen st.next ann.id
            .ok { annotations := st.annotations ++
                    [.KeypointDetection { ann with
                                            image_id := newImgId,
                                            category_id := newCat, id := r.1 }],
                  seen := r.2.1, next := r.2.2 }
    | .PanopticSegmentation ann =>
        match processSegments path catRemap ann.segments_info st.seen st.next with
        | .error e => .error e
        | .ok (segs', seen', next') =>
            .ok { annotations := st.annotations ++
                    [.PanopticSegmentation { ann with
                                               image_id := newImgId,
                                               segments_info := segs' }],
                  seen := seen', next := next' }
    | .ImageCaptioning ann =>
        let r := resolveId st.seen st.next ann.id
        .ok { annotations := st.annotations ++
                [.ImageCaptioning { ann with image_id := newImgId, id := r.1 }],
              seen := r.2.1, next := r.2.2 }
    | .ObjectDetection ann =>
        match rlookup catRemap ann.category_id with
        | none => .error (.categoryNotFound ann.category_id ann.id path)
        | some newCat =>
            let r := resolveId st.seen st.next ann.id
            .ok { annotations := st.annotations ++
                    [.ObjectDetection { ann with
                                          image_id := newImgId,
                                          category_id := newCat, id := r.1 }],
                  seen := r.2.1, next := r.2.2 }
    | .DensePose ann =>
        match rlookup catRemap ann.category_id with
        | none => .error (.categoryNotFound ann.category_id ann.id path)
        | some newCat =>
            let r := resolveId st.seen st.next ann.id
            .ok { annotations := st.annotations ++
                    [.DensePose { ann with
                                    image_id := newImgId,
                                    category_id := newCat, id := r.1 }],
                  seen := r.2.1, next := r.2.2 }

/-- The annotations loop over one file's list. -/
def processAnns (path : String) (catRemap imgRemap : List (Int × Int)) :
    AnnState → List CocoAnn → Except MergeError AnnState
  | st, [] => .ok st
  | st, a :: as_ =>
      match processOneAnn path catRemap imgRemap st a with
      | .error e => .error e
      | .ok st' => processAnns path catRemap imgRemap st' as_

-- The per-file loop and the whole merge (cocomerge.rs lines 41-320) ----------

/-- All running state of the merge loop. -/
structure MergeState where
  cats : ReconState CocoCategory
  lics : ReconState CocoLicense
  imgs : ImgState
  anns : AnnState
deriving DecidableEq, Repr

/-- The initial state: empty sets, counters at 0. -/
def initState : MergeState :=
  { cats := { set := [], seen := [], next := 0 },
    lics := { set := [], seen := [], next := 0 },
    imgs := { images := [], seen := [], next := 0, warnings := [] },
    anns := { annotations := [], seen := [], next := 0 } }

/-- One iteration of the per-file loop: categories, then licenses, then
images, then annotations, each later stage consuming the remap of an
earlier one. -/
def processFile (reassign : Bool) (st : MergeState) (pf : String × CocoFile) :
    Except MergeError MergeState :=
  let pc := processCategories st.cats pf.2.categories
  let pl := processLicenses st.lics pf.2.licenses
  match processImages reassign pf.1 pl.2 st.imgs [] pf.2.images with
  | .error e => .error e
  | .ok (imgs', imgRemap) =>
      match processAnns pf.1 pc.2 imgRemap st.anns pf.2.annotations with
      | .error e => .error e
      | .ok anns' => .ok { cats := pc.1, lics := pl.1, imgs := imgs', anns := anns' }

/-- The file loop from an arbitrary state. -/
def mergeFrom (reassign : Bool) : MergeState → List (String × CocoFile) →
    Except MergeError MergeState
  | st, [] => .ok st
  | st, pf :: rest =>
      match processFile reassign st pf with
      | .error e => .error e
      | .ok st' => mergeFrom reassign st' rest

/-- The output assembler: the merged `CocoFile` built from the final state
(the fresh `info` block is not modelled). -/
def assembleFile (st : MergeState) : CocoFile :=
  { images := st.imgs.images,
    annotations := st.anns.annotations,
    categories := some st.cats.set,
    licenses := some st.lics.set }

/-- The whole merge run from an arbitrary starting state; the merged file is
produced only when no stage panicked. -/
def runMergeFrom (reassign : Bool) (st : MergeState)
    (files : List (String × CocoFile)) : Except MergeError CocoFile :=
  (mergeFrom reassign st files).map assembleFile

/-- The whole `cocomerge` run. -/
def runMerge (reassign : Bool) (files : List (String × CocoFile)) :
    Except MergeError CocoFile :=
  runMergeFrom reassign initState files

-- Derived id collections -----------------------------------------------------

/-- The ids an annotation owns in the shared annotation/segment namespace:
its own id, or for a panoptic annotation the ids of its segments. -/
def annIds : CocoAnn → List Int
  | .KeypointDetection a => [a.id]
  | .PanopticSegmentation a => a.segments_info.map (·.id)
  | .ImageCaptioning a => [a.id]
  | .ObjectDetection a => [a.id]
  | .DensePose a => [a.id]

/-- All annotation/segment ids of a list of annotations. -/
def allAnnIds (l : List CocoAnn) : List Int := (l.map annIds).flatten

/-- The category references an annotation carries. -/
def annCatRefs : CocoAnn → List Int
  | .KeypointDetection a => [a.category_id]
  | .PanopticSegmentation a => a.segments_info.map (·.category_id)
  | .ImageCaptioning _ => []
  | .ObjectDetection a => [a.category_id]
  | .DensePose a => [a.category_id]

/-- The ids of a list of images. -/
def imageIds (l : List CocoImage) : List Int := l.map (·.id)

/-- The category ids declared by a file. -/
def catIdsOf (f : CocoFile) : List Int := (f.categories.getD []).map CocoCategory.cid

/-- The license ids declared by a file. -/
def licIdsOf (f : CocoFile) : List Int := (f.licenses.getD []).map (·.id)

/-- The content of an image that every merge branch passes through unchanged
(only `id`, `file_name` and `license` are ever rewritten). -/
def imgKey (i : CocoImage) : Nat × Nat × Nat := (i.width, i.height, i.rest)

/-- The content of an annotation that every merge branch passes through
unchanged (only ids and remapped references are ever rewritten). -/
inductive AnnKey where
  | KeypointDetection (rest : Nat)
  | PanopticSegmentation (file_name : String) (segRests : List Nat)
  | ImageCaptioning (caption : String)
  | ObjectDetection (rest : Nat)
  | DensePose (rest : Nat)
deriving DecidableEq, Repr

/-- The pass-through content of each annotation variant. -/
def annKey : CocoAnn → AnnKey
  | .KeypointDetection a => .KeypointDetection a.rest
  | .PanopticSegmentation a =>
      .PanopticSegmentation a.file_name (a.segments_info.map (fun s => s.rest))
  | .ImageCaptioning a => .ImageCaptioning a.caption
  | .ObjectDetection a => .ObjectDetection a.rest
  | .DensePose a => .DensePose a.rest

-- C1 ------------------------------------------------------------------------

/-- First input file of the C1 failing run: one object-detection category
with id 0. -/
def c1file1 : CocoFile :=
  { images := [], annotations := [],
    categories := some [.ObjectDetection { id := 0, name := "a", supercategory := "s" }],
    licenses := none }

/-- Second input file of the C1 failing run: a structurally different
category reusing id 0 (which forces a reassignment to the fresh id 1), and a
third structurally different category explicitly carrying id 1. -/
def c1file2 : CocoFile :=
  { images := [], annotations := [],
    categories := some
      [.ObjectDetection { id := 0, name := "b", supercategory := "s" },
       .ObjectDetection { id := 1, name := "c", supercategory := "s" }],
    licenses := none }

/-- C1: the claim states that in the merged output all category ids are
distinct.  The code violates this: the clash branch of the category loop
(cocomerge.rs lines 83-89) allocates `next_unseen_category_id` for the
reassigned category but never records the new id in `category_seen_ids`
(unlike the image and annotation branches, which do record reassigned ids),
so a later category explicitly carrying that id is accepted as-is and the
merged output contains two categories with id 1. -/
theorem cocomerge_C1_bug :
    (mergeFrom false initState [("f1.json", c1file1), ("f2.json", c1file2)]).map
        (fun st => st.cats.set.map CocoCategory.cid) = Except.ok [0, 1, 1] ∧
      ¬ ([0, 1, 1] : List Int).Nodup := by
  constructor
  · rfl
  · decide

-- Basic lemmas about the association-list and id-resolution helpers ---------

theorem rlookup_eq_none (r : List (Int × Int)) (k : Int)
    (h : ∀ e ∈ r, e.1 ≠ k) : rlookup r k = none := by
  induction r with
  | nil => rfl
  | cons e rest ih =>
      obtain ⟨k', v'⟩ := e
      have hk : k ≠ k' := fun hh => h (k', v') (by simp) (by simp [hh])
      simp [rlookup, if_neg hk]
      exact ih (fun e he => h e (by simp [he]))

theorem rlookup_mem (r : List (Int × Int)) (k v : Int)
    (h : rlookup r k = some v) : (k, v) ∈ r := by
  induction r with
  | nil => simp [rlookup] at h
  | cons e rest ih =>
      obtain ⟨k', v'⟩ := e
      by_cases hk : k = k'
      · subst hk
        simp [rlookup] at h
        simp [h]
      · simp [rlookup, if_neg hk] at h
        exact List.mem_cons_of_mem _ (ih h)

theorem rlookup_id_pairs (r : List (Int × Int)) (k : Int)
    (hid : ∀ e ∈ r, e.1 = e.2) (hk : k ∈ r.map Prod.fst) :
    rlookup r k = some k := by
  induction r with
  | nil => simp at hk
  | cons e rest ih =>
      obtain ⟨k', v'⟩ := e
      by_cases h : k = k'
      · subst h
        have : k = v' := hid (k, v') (by simp)
        simp [rlookup, ← this]
      · simp [rlookup, if_neg h]
        simp at hk
        rcases hk with hk | hk
        · exact absurd hk h
        · exact ih (fun e he => hid e (by simp [he])) (by simpa using hk)

theorem rlookup_isSome_cons (r : List (Int × Int)) (k k' v' : Int)
    (h : (rlookup r k).isSome) : (rlookup ((k', v') :: r) k).isSome := by
  by_cases hk : k = k'
  · simp [rlookup, hk]
  · simpa [rlookup, if_neg hk] using h

theorem resolveId_newSeen (seen : List Int) (next i : Int) :
    (resolveId seen next i).2.1 = (resolveId seen next i).1 :: seen := by
  unfold resolveId
  by_cases h : i ∈ seen <;> simp [h]

theorem resolveId_fresh (seen : List Int) (next i : Int)
    (hb : ∀ j ∈ seen, j < next) : (resolveId seen next i).1 ∉ seen := by
  unfold resolveId
  by_cases h : i ∈ seen
  · simp only [h, if_pos]
    intro hmem
    exact absurd (hb _ hmem) (lt_irrefl next)
  · simp [h]

theorem resolveId_bound (seen : List Int) (next i : Int)
    (hb : ∀ j ∈ seen, j < next) :
    ∀ j ∈ (resolveId seen next i).2.1, j < (resolveId seen next i).2.2 := by
  unfold resolveId
  by_cases h : i ∈ seen
  · simp only [h, if_pos]
    intro j hj
    rcases List.mem_cons.mp hj with rfl | hj
    · omega
    · exact lt_trans (hb _ hj) (by omega)
  · simp only [h, ite_false, if_neg, not_false_iff]
    intro j hj
    rcases List.mem_cons.mp hj with rfl | hj
    · split <;> omega
    · have := hb _ hj
      split <;> omega

theorem resolveId_keep (seen : List Int) (next i : Int) (h : i ∉ seen) :
    (resolveId seen next i).1 = i := by
  simp [resolveId, h]

theorem resolveId_reassign (seen : List Int) (next i : Int)
    (hb : ∀ j ∈ seen, j < next) (hi : i ∈ seen) :
    (resolveId seen next i).1 ≠ i := by
  have h := resolveId_fresh seen next i hb
  intro he
  rw [← he] at hi
  exact h hi

-- Invariant of the shared annotation/segment id namespace ---------------------

/-- The invariant the annotation reconciler maintains: every id already
placed in the output lies in the seen set, every seen id is below the
counter, and the placed ids are pairwise distinct. -/
def AnnInv (s : AnnState) : Prop :=
  (∀ i ∈ allAnnIds s.annotations, i ∈ s.seen) ∧
  (∀ j ∈ s.seen, j < s.next) ∧
  (allAnnIds s.annotations).Nodup

theorem allAnnIds_append (l1 l2 : List CocoAnn) :
    allAnnIds (l1 ++ l2) = allAnnIds l1 ++ allAnnIds l2 := by
  simp [allAnnIds]

theorem processSegments_inv (path : String) (catRemap : List (Int × Int)) :
    ∀ (segs : List CocoPanopticSegmentInfo) (seen : List Int) (next : Int)
      (P : List Int) (out : List CocoPanopticSegmentInfo × List Int × Int),
      (∀ i ∈ P, i ∈ seen) → (∀ j ∈ seen, j < next) → P.Nodup →
      processSegments path catRemap segs seen next = .ok out →
      (∀ i ∈ P ++ out.1.map (·.id), i ∈ out.2.1) ∧
      (∀ j ∈ out.2.1, j < out.2.2) ∧
      (P ++ out.1.map (·.id)).Nodup ∧
      (∀ j ∈ seen, j ∈ out.2.1) := by
  intro segs
  induction segs with
  | nil =>
      intro seen next P out hP hb hN hok
      simp only [processSegments] at hok
      cases hok
      refine ⟨?_, hb, by simpa using hN, fun j hj => hj⟩
      intro i hi
      simp at hi
      exact hP i hi
  | cons seg segs ih =>
      intro seen next P out hP hb hN hok
      simp only [processSegments] at hok
      cases hcat : rlookup catRemap seg.category_id with
      | none => rw [hcat] at hok; cases hok
      | some newCat =>
          rw [hcat] at hok
          cases hrec : processSegments path catRemap segs
              (resolveId seen next seg.id).2.1 (resolveId seen next seg.id).2.2 with
          | error e => rw [hrec] at hok; cases hok
          | ok out' =>
              rw [hrec] at hok
              obtain ⟨rest, seen', next'⟩ := out'
              cases hok
              have hfresh := resolveId_fresh seen next seg.id hb
              have hnew := resolveId_newSeen seen next seg.id
              have hP' : ∀ i ∈ P ++ [(resolveId seen next seg.id).1],
                  i ∈ (resolveId seen next seg.id).2.1 := by
                intro i hi
                rw [hnew]
                rcases List.mem_append.mp hi with hi | hi
                · exact List.mem_cons_of_mem _ (hP i hi)
                · simp at hi
                  simp [hi]
              have hN' : (P ++ [(resolveId seen next seg.id).1]).Nodup := by
                rw [List.nodup_append]
                refine ⟨hN, List.nodup_singleton _, ?_⟩
                intro i hi
                simp only [List.mem_singleton]
                intro he
                exact hfresh (he ▸ hP i hi)
              have := ih (resolveId seen next seg.id).2.1 (resolveId seen next seg.id).2.2
                (P ++ [(resolveId seen next seg.id).1]) (rest, seen', next')
                hP' (resolveId_bound seen next seg.id hb) hN' hrec
              obtain ⟨h1, h2, h3, h4⟩ := this
              refine ⟨?_, h2, ?_, ?_⟩
              · intro i hi
                apply h1
                simp only [List.map_cons, List.append_assoc] at hi ⊢
                simpa [List.append_assoc] using hi
              · simpa [List.append_assoc] using h3
              · intro j hj
                apply h4
                rw [hnew]
                exact List.mem_cons_of_mem _ hj

theorem annStep_inv (st : AnnState) (i : Int) (mk : Int → CocoAnn)
    (hids : annIds (mk (resolveId st.seen st.next i).1) =
      [(resolveId st.seen st.next i).1])
    (hInv : AnnInv st) :
    AnnInv { annotations := st.annotations ++ [mk (resolveId st.seen st.next i).1],
             seen := (resolveId st.seen st.next i).2.1,
             next := (resolveId st.seen st.next i).2.2 } := by
  obtain ⟨hcov, hb, hN⟩ := hInv
  have hfresh := resolveId_fresh st.seen st.next i hb
  have hnew := resolveId_newSeen st.seen st.next i
  refine ⟨?_, resolveId_bound st.seen st.next i hb, ?_⟩
  · intro j hj
    rw [allAnnIds_append] at hj
    rcases List.mem_append.mp hj with hj | hj
    · rw [hnew]
      exact List.mem_cons_of_mem _ (hcov j hj)
    · simp only [allAnnIds, List.map_cons, List.map_nil, List.flatten] at hj
      rw [hids] at hj
      simp at hj
      rw [hnew, hj]
      exact List.mem_cons_self _ _
  · rw [allAnnIds_append]
    simp only [allAnnIds, List.map_cons, List.map_nil]
    rw [List.nodup_append]
    refine ⟨hN, ?_, ?_⟩
    · simp [hids]
    · intro j hj
      simp only [List.flatten, hids]
      simp only [List.flatten_nil, List.append_nil, List.mem_singleton]
      intro he
      exact hfresh (he ▸ hcov j hj)

theorem allAnnIds_concat (l : List CocoAnn) (x : CocoAnn) :
    allAnnIds (l ++ [x]) = allAnnIds l ++ annIds x := by
  simp [allAnnIds]

theorem processOneAnn_inv (path : String) (cR iR : List (Int × Int))
    (st st' : AnnState) (a : CocoAnn)
    (hInv : AnnInv st) (hok : processOneAnn path cR iR st a = .ok st') :
    AnnInv st' := by
  cases a with
  | KeypointDetection ann =>
      cases himg : rlookup iR (CocoAnn.KeypointDetection ann).imageId with
      | none =>
          simp only [processOneAnn, himg] at hok
          cases hok
          exact hInv
      | some newImgId =>
          cases hcat : rlookup cR ann.category_id with
          | none =>
              simp only [processOneAnn, himg, hcat] at hok
              exact (Except.noConfusion hok)
          | some newCat =>
              simp only [processOneAnn, himg, hcat] at hok
              cases hok
              exact annStep_inv st ann.id
                (fun n => .KeypointDetection
                  { ann with image_id := newImgId, category_id := newCat, id := n })
                (by simp [annIds]) hInv
  | PanopticSegmentation ann =>
      cases himg : rlookup iR (CocoAnn.PanopticSegmentation ann).imageId with
      | none =>
          simp only [processOneAnn, himg] at hok
          cases hok
          exact hInv
      | some newImgId =>
          cases hseg : processSegments path cR ann.segments_info st.seen st.next with
          | error e =>
              simp only [processOneAnn, himg, hseg] at hok
              exact (Except.noConfusion hok)
          | ok out =>
              obtain ⟨segs', seen', next'⟩ := out
              simp only [processOneAnn, himg, hseg] at hok
              cases hok
              obtain ⟨hcov, hb, hN⟩ := hInv
              obtain ⟨h1, h2, h3, _⟩ := processSegments_inv path cR ann.segments_info
                st.seen st.next (allAnnIds st.annotations) (segs', seen', next')
                hcov hb hN hseg
              refine ⟨?_, h2, ?_⟩
              · intro j hj
                rw [allAnnIds_concat] at hj
                apply h1
                simpa [annIds] using hj
              · rw [allAnnIds_concat]
                simpa [annIds] using h3
  | ImageCaptioning ann =>
      cases himg : rlookup iR (CocoAnn.ImageCaptioning ann).imageId with
      | none =>
          simp only [processOneAnn, himg] at hok
          cases hok
          exact hInv
      | some newImgId =>
          simp only [processOneAnn, himg] at hok
          cases hok
          exact annStep_inv st ann.id
            (fun n => .ImageCaptioning { ann with image_id := newImgId, id := n })
            (by simp [annIds]) hInv
  | ObjectDetection ann =>
      cases himg : rlookup iR (CocoAnn.ObjectDetection ann).imageId with
      | none =>
          simp only [processOneAnn, himg] at hok
          cases hok
          exact hInv
      | some newImgId =>
          cases hcat : rlookup cR ann.category_id with
          | none =>
              simp only [processOneAnn, himg, hcat] at hok
              exact (Except.noConfusion hok)
          | some newCat =>
              simp only [processOneAnn, himg, hcat] at hok
              cases hok
              exact annStep_inv st ann.id
                (fun n => .ObjectDetection
                  { ann with image_id := newImgId, category_id := newCat, id := n })
                (by simp [annIds]) hInv
  | DensePose ann =>
      cases himg : rlookup iR (CocoAnn.DensePose ann).imageId with
      | none =>
          simp only [processOneAnn, himg] at hok
          cases hok
          exact hInv
      | some newImgId =>
          cases hcat : rlookup cR ann.category_id with
          | none =>
              simp only [processOneAnn, himg, hcat] at hok
              exact (Except.noConfusion hok)
          | some newCat =>
              simp only [processOneAnn, himg, hcat] at hok
              cases hok
              exact annStep_inv st ann.id
                (fun n => .DensePose
                  { ann with image_id := newImgId, category_id := newCat, id := n })
                (by simp [annIds]) hInv

theorem processAnns_inv (path : String) (cR iR : List (Int × Int)) :
    ∀ (anns : List CocoAnn) (st st' : AnnState),
      AnnInv st → processAnns path cR iR st anns = .ok st' → AnnInv st' := by
  intro anns
  induction anns with
  | nil =>
      intro st st' hInv hok
      simp only [processAnns] at hok
      cases hok
      exact hInv
  | cons a as_ ih =>
      intro st st' hInv hok
      simp only [processAnns] at hok
      cases hone : processOneAnn path cR iR st a with
      | error e => rw [hone] at hok; cases hok
      | ok st1 =>
          rw [hone] at hok
          exact ih st1 st' (processOneAnn_inv path cR iR st st1 a hInv hone) hok

theorem processFile_annInv (reassign : Bool) (st st' : MergeState)
    (pf : String × CocoFile) (hInv : AnnInv st.anns)
    (hok : processFile reassign st pf = .ok st') : AnnInv st'.anns := by
  simp only [processFile] at hok
  cases himg : processImages reassign pf.1 (processLicenses st.lics pf.2.licenses).2
      st.imgs [] pf.2.images with
  | error e =>
      simp only [himg] at hok
      exact (Except.noConfusion hok)
  | ok p =>
      obtain ⟨imgs', imgRemap⟩ := p
      simp only [himg] at hok
      cases hann : processAnns pf.1 (processCategories st.cats pf.2.categories).2
          imgRemap st.anns pf.2.annotations with
      | error e =>
          simp only [hann] at hok
          exact (Except.noConfusion hok)
      | ok anns' =>
          simp only [hann] at hok
          cases hok
          exact processAnns_inv pf.1 _ imgRemap pf.2.annotations st.anns anns' hInv hann

theorem mergeFrom_annInv (reassign : Bool) :
    ∀ (files : List (String × CocoFile)) (st st' : MergeState),
      AnnInv st.anns → mergeFrom reassign st files = .ok st' → AnnInv st'.anns := by
  intro files
  induction files with
  | nil =>
      intro st st' hInv hok
      simp only [mergeFrom] at hok
      cases hok
      exact hInv
  | cons pf rest ih =>
      intro st st' hInv hok
      simp only [mergeFrom] at hok
      cases hfile : processFile reassign st pf with
      | error e => rw [hfile] at hok; cases hok
      | ok st1 =>
          rw [hfile] at hok
          exact ih st1 st' (processFile_annInv reassign st st1 pf hInv hfile) hok

theorem processSegments_keyPres (path : String) (cR : List (Int × Int)) :
    ∀ (segs : List CocoPanopticSegmentInfo) (seen : List Int) (next : Int)
      (segs' : List CocoPanopticSegmentInfo) (seen' : List Int) (next' : Int),
      processSegments path cR segs seen next = .ok (segs', seen', next') →
      segs'.map (fun s => s.rest) = segs.map (fun s => s.rest) := by
  intro segs
  induction segs with
  | nil =>
      intro seen next segs' seen' next' hok
      simp only [processSegments] at hok
      cases hok
      rfl
  | cons seg rest ih =>
      intro seen next segs' seen' next' hok
      simp only [processSegments] at hok
      cases hcat : rlookup cR seg.category_id with
      | none =>
          rw [hcat] at hok
          exact Except.noConfusion hok
      | some newCat =>
          rw [hcat] at hok
          cases hrest : processSegments path cR rest
              (resolveId seen next seg.id).2.1 (resolveId seen next seg.id).2.2 with
          | error e =>
              rw [hrest] at hok
              exact Except.noConfusion hok
          | ok out =>
              obtain ⟨rest2, seen2, next2⟩ := out
              rw [hrest] at hok
              cases hok
              simp only [List.map_cons]
              rw [ih _ _ _ _ _ hrest]

theorem processOneAnn_refKey (path : String) (cR iR : List (Int × Int))
    (st st' : AnnState) (a : CocoAnn)
    (hok : processOneAnn path cR iR st a = .ok st') :
    (rlookup iR (CocoAnn.imageId a) = none ∧ st' = st) ∨
    (∃ v a', rlookup iR (CocoAnn.imageId a) = some v ∧
      st'.annotations = st.annotations ++ [a'] ∧
      CocoAnn.imageId a' = v ∧ annKey a' = annKey a) := by
  cases himg : rlookup iR a.imageId with
  | none =>
      simp only [processOneAnn, himg] at hok
      exact Or.inl ⟨rfl, (Except.ok.inj hok).symm⟩
  | some v =>
      refine Or.inr ?_
      cases a with
      | KeypointDetection ann =>
          cases hcat : rlookup cR ann.category_id with
          | none =>
              simp only [processOneAnn, himg, hcat] at hok
              exact Except.noConfusion hok
          | some newCat =>
              simp only [processOneAnn, himg, hcat] at hok
              cases hok
              exact ⟨v, _, rfl, rfl, rfl, rfl⟩
      | PanopticSegmentation ann =>
          cases hseg : processSegments path cR ann.segments_info st.seen st.next with
          | error e =>
              simp only [processOneAnn, himg, hseg] at hok
              exact Except.noConfusion hok
          | ok out =>
              obtain ⟨segs', seen', next'⟩ := out
              simp only [processOneAnn, himg, hseg] at hok
              cases hok
              refine ⟨v, _, rfl, rfl, rfl, ?_⟩
              simp only [annKey]
              rw [processSegments_keyPres path cR ann.segments_info st.seen st.next
                segs' seen' next' hseg]
      | ImageCaptioning ann =>
          simp only [processOneAnn, himg] at hok
          cases hok
          exact ⟨v, _, rfl, rfl, rfl, rfl⟩
      | ObjectDetection ann =>
          cases hcat : rlookup cR ann.category_id with
          | none =>
              simp only [processOneAnn, himg, hcat] at hok
              exact Except.noConfusion hok
          | some newCat =>
              simp only [processOneAnn, himg, hcat] at hok
              cases hok
              exact ⟨v, _, rfl, rfl, rfl, rfl⟩
      | DensePose ann =>
          cases hcat : rlookup cR ann.category_id with
          | none =>
              simp only [processOneAnn, himg, hcat] at hok
              exact Except.noConfusion hok
          | some newCat =>
              simp only [processOneAnn, himg, hcat] at hok
              cases hok
              exact ⟨v, _, rfl, rfl, rfl, rfl⟩

/-- C2: in every merged output all annotation ids and all panoptic segment
ids are pairwise distinct within one shared global namespace; when an id
arrives that already exists in that namespace the holder of the existing id
keeps its value while the newcomer is reassigned a fresh id (one not in the
namespace and different from the contested value), while an id that is new
keeps its value; and every annotation that is retained — whether its id was
kept or reassigned — is pushed with its content unchanged and its `image_id`
equal to the remapped id of its own image, so both parties of an id clash
still refer to their correct (remapped) image. -/
theorem cocomerge_C2 :
    (∀ (reassign : Bool) (files : List (String × CocoFile)) (st : MergeState),
        mergeFrom reassign initState files = .ok st →
        (allAnnIds st.anns.annotations).Nodup) ∧
    (∀ (seen : List Int) (next i : Int), (∀ j ∈ seen, j < next) →
        (i ∈ seen →
          (resolveId seen next i).1 ∉ seen ∧ (resolveId seen next i).1 ≠ i) ∧
        (i ∉ seen → (resolveId seen next i).1 = i)) ∧
    (∀ (path : String) (cR iR : List (Int × Int)) (st st' : AnnState)
        (a : CocoAnn), processOneAnn path cR iR st a = .ok st' →
        (rlookup iR (CocoAnn.imageId a) = none ∧ st' = st) ∨
        (∃ v a', rlookup iR (CocoAnn.imageId a) = some v ∧
          st'.annotations = st.annotations ++ [a'] ∧
          CocoAnn.imageId a' = v ∧ annKey a' = annKey a)) := by
  refine ⟨?_, ?_, ?_⟩
  · intro reassign files st hok
    have hinit : AnnInv initState.anns := by
      refine ⟨?_, ?_, ?_⟩ <;> simp [initState, AnnInv, allAnnIds]
    exact (mergeFrom_annInv reassign files initState st hinit hok).2.2
  · intro seen next i hb
    constructor
    · intro hi
      exact ⟨resolveId_fresh seen next i hb, resolveId_reassign seen next i hb hi⟩
    · intro hi
      exact resolveId_keep seen next i hi
  · intro path cR iR st st' a hok
    exact processOneAnn_refKey path cR iR st st' a hok

-- Concrete witness input -----------------------------------------------------

/-- A small well-formed input file used by several witnesses: one image, an
object-detection annotation with id 7 and a panoptic segment also carrying
id 7 (so the shared annotation/segment namespace has to reassign one). -/
def witFile1 : CocoFile :=
  { images := [{ id := 1, width := 2, height := 2, file_name := "a.jpg",
                 license := none, rest := 0 }],
    annotations :=
      [.ObjectDetection { id := 7, image_id := 1, category_id := 0, rest := 0 },
       .PanopticSegmentation { image_id := 1, file_name := "seg.png",
                               segments_info := [{ id := 7, category_id := 0, rest := 0 }] }],
    categories := some [.ObjectDetection { id := 0, name := "c", supercategory := "s" }],
    licenses := none }

/-- The merged state of running `witFile1` alone (the panoptic segment id 7
was reassigned to the fresh id 8 because the object-detection annotation
already claimed 7 in the shared namespace). -/
def witState1 : MergeState :=
  { cats := { set := [.ObjectDetection { id := 0, name := "c", supercategory := "s" }],
              seen := [0], next := 1 },
    lics := { set := [], seen := [], next := 0 },
    imgs := { images := [{ id := 1, width := 2, height := 2, file_name := "d/a.jpg",
                           license := none, rest := 0 }],
              seen := [1], next := 2, warnings := [] },
    anns := { annotations :=
                [.ObjectDetection { id := 7, image_id := 1, category_id := 0, rest := 0 },
                 .PanopticSegmentation { image_id := 1, file_name := "seg.png",
                                         segments_info := [{ id := 8, category_id := 0, rest := 0 }] }],
              seen := [8, 7], next := 9 } }

/-- An annotation whose id 7 clashes in the shared namespace, processed in a
state remapping its image 1 to 5, used by the C2 witness. -/
def c2ann : CocoAnn :=
  .ObjectDetection { id := 7, image_id := 1, category_id := 0, rest := 0 }

/-- The annotation state before processing `c2ann` (id 7 already taken). -/
def c2annState : AnnState := { annotations := [], seen := [7], next := 8 }

/-- The annotation state after processing `c2ann`: its id was reassigned to
the fresh 8, its `image_id` retargeted to the remapped image 5. -/
def c2outState : AnnState :=
  { annotations :=
      [.ObjectDetection { id := 8, image_id := 5, category_id := 0, rest := 0 }],
    seen := [8, 7], next := 9 }

/-- Witness for C2 at concrete inputs: the run on `witFile1` succeeds and
its output ids in the shared namespace are pairwise distinct, the
reassignment behaviour of `resolveId` is exercised at a colliding id, and
processing the clashing annotation `c2ann` under the image remap `[(1, 5)]`
pushes it content-unchanged with `image_id` equal to the remapped image id. -/
theorem cocomerge_C2_witness :
    (allAnnIds witState1.anns.annotations).Nodup ∧
    ((resolveId [5] 6 5).1 ∉ ([5] : List Int) ∧ (resolveId [5] 6 5).1 ≠ 5) ∧
    ((rlookup [(1, 5)] (CocoAnn.imageId c2ann) = none ∧ c2outState = c2annState) ∨
     (∃ v a', rlookup [(1, 5)] (CocoAnn.imageId c2ann) = some v ∧
       c2outState.annotations = c2annState.annotations ++ [a'] ∧
       CocoAnn.imageId a' = v ∧ annKey a' = annKey c2ann)) :=
  ⟨cocomerge_C2.1 false [("d/f.json", witFile1)] witState1 (by decide),
   (cocomerge_C2.2.1 [5] 6 5 (by decide)).1 (by decide),
   cocomerge_C2.2.2 "p" [(0, 0)] [(1, 5)] c2annState c2outState c2ann (by decide)⟩

-- Branch analysis of the image step ------------------------------------------

theorem rlookup_cons (r : List (Int × Int)) (k0 v0 k : Int) :
    rlookup ((k0, v0) :: r) k = if k = k0 then some v0 else rlookup r k := rfl

theorem processImage_cases (reassign : Bool) (path : String) (licR : List (Int × Int))
    (st : ImgState) (remap : List (Int × Int)) (img : CocoImage)
    (st1 : ImgState) (remap1 : List (Int × Int))
    (hok : processImage reassign path licR st remap img = .ok (st1, remap1)) :
    ∃ fn lic, resolveFileName path img.file_name = .ok fn ∧
      resolveLicense licR path img = .ok lic ∧
      ((img.id ∈ st.seen ∧ reassign = true ∧
          st1 = { st with
                    images := st.images ++
                      [{ img with file_name := fn, license := lic, id := st.next }],
                    seen := st.next :: st.seen, next := st.next + 1 } ∧
          remap1 = (img.id, st.next) :: remap) ∨
       (img.id ∈ st.seen ∧ reassign = false ∧
          st1 = { st with warnings := st.warnings ++ [(path, img.id)] } ∧
          remap1 = remap) ∨
       (img.id ∉ st.seen ∧
          st1 = { st with
                    images := st.images ++ [{ img with file_name := fn, license := lic }],
                    seen := img.id :: st.seen,
                    next := if img.id ≥ st.next then img.id + 1 else st.next } ∧
          remap1 = (img.id, img.id) :: remap)) := by
  cases hfn : resolveFileName path img.file_name with
  | error e =>
      simp only [processImage, hfn] at hok
      exact Except.noConfusion hok
  | ok fn =>
      cases hlic : resolveLicense licR path img with
      | error e =>
          simp only [processImage, hfn, hlic] at hok
          exact Except.noConfusion hok
      | ok lic =>
          refine ⟨fn, lic, rfl, rfl, ?_⟩
          by_cases hseen : img.id ∈ st.seen
          · cases reassign with
            | true =>
                left
                simp only [processImage, hfn, hlic, if_pos hseen, if_true,
                  Except.ok.injEq, Prod.mk.injEq] at hok
                exact ⟨hseen, rfl, hok.1.symm, hok.2.symm⟩
            | false =>
                right; left
                simp only [processImage, hfn, hlic, if_pos hseen,
                  Bool.false_eq_true, if_false, Except.ok.injEq, Prod.mk.injEq] at hok
                exact ⟨hseen, rfl, hok.1.symm, hok.2.symm⟩
          · right; right
            simp only [processImage, hfn, hlic, if_neg hseen,
              Except.ok.injEq, Prod.mk.injEq] at hok
            exact ⟨hseen, hok.1.symm, hok.2.symm⟩

-- Referential integrity of annotation image ids -------------------------------

theorem processOneAnn_skip (path : String) (cR iR : List (Int × Int))
    (st : AnnState) (a : CocoAnn) (h : rlookup iR a.imageId = none) :
    processOneAnn path cR iR st a = .ok st := by
  simp only [processOneAnn, h]

theorem processOneAnn_shape (path : String) (cR iR : List (Int × Int))
    (st st' : AnnState) (a : CocoAnn)
    (hok : processOneAnn path cR iR st a = .ok st') :
    (rlookup iR a.imageId = none ∧ st' = st) ∨
    (∃ v a', rlookup iR a.imageId = some v ∧
      st'.annotations = st.annotations ++ [a'] ∧ CocoAnn.imageId a' = v) := by
  cases himg : rlookup iR a.imageId with
  | none =>
      rw [processOneAnn_skip path cR iR st a himg] at hok
      exact Or.inl ⟨rfl, (Except.ok.inj hok).symm⟩
  | some v =>
      refine Or.inr ?_
      cases a with
      | KeypointDetection ann =>
          cases hcat : rlookup cR ann.category_id with
          | none =>
              simp only [processOneAnn, himg, hcat] at hok
              exact Except.noConfusion hok
          | some newCat =>
              simp only [processOneAnn, himg, hcat] at hok
              cases hok
              exact ⟨v, _, rfl, rfl, rfl⟩
      | PanopticSegmentation ann =>
          cases hseg : processSegments path cR ann.segments_info st.seen st.next with
          | error e =>
              simp only [processOneAnn, himg, hseg] at hok
              exact Except.noConfusion hok
          | ok out =>
              obtain ⟨segs', seen', next'⟩ := out
              simp only [processOneAnn, himg, hseg] at hok
              cases hok
              exact ⟨v, _, rfl, rfl, rfl⟩
      | ImageCaptioning ann =>
          simp only [processOneAnn, himg] at hok
          cases hok
          exact ⟨v, _, rfl, rfl, rfl⟩
      | ObjectDetection ann =>
          cases hcat : rlookup cR ann.category_id with
          | none =>
              simp only [processOneAnn, himg, hcat] at hok
              exact Except.noConfusion hok
          | some newCat =>
              simp only [processOneAnn, himg, hcat] at hok
              cases hok
              exact ⟨v, _, rfl, rfl, rfl⟩
      | DensePose ann =>
          cases hcat : rlookup cR ann.category_id with
          | none =>
              simp only [processOneAnn, himg, hcat] at hok
              exact Except.noConfusion hok
          | some newCat =>
              simp only [processOneAnn, himg, hcat] at hok
              cases hok
              exact ⟨v, _, rfl, rfl, rfl⟩

theorem processImages_shape (reassign : Bool) (path : String) (licR : List (Int × Int)) :
    ∀ (imgs : List CocoImage) (st : ImgState) (remap : List (Int × Int))
      (st1 : ImgState) (remap1 : List (Int × Int)),
      processImages reassign path licR st remap imgs = .ok (st1, remap1) →
      (∃ L, st1.images = st.images ++ L) ∧
      (∃ W, st1.warnings = st.warnings ++ W) ∧
      (∀ j ∈ st.seen, j ∈ st1.seen) := by
  intro imgs
  induction imgs with
  | nil =>
      intro st remap st1 remap1 hok
      simp only [processImages] at hok
      cases hok
      exact ⟨⟨[], by simp⟩, ⟨[], by simp⟩, fun j hj => hj⟩
  | cons img rest ih =>
      intro st remap st1 remap1 hok
      simp only [processImages] at hok
      cases hstep : processImage reassign path licR st remap img with
      | error e => rw [hstep] at hok; exact Except.noConfusion hok
      | ok p =>
          obtain ⟨st2, remap2⟩ := p
          rw [hstep] at hok
          obtain ⟨fn, lic, _, _, hbr⟩ :=
            processImage_cases reassign path licR st remap img st2 remap2 hstep
          obtain ⟨hL, hW, hS⟩ := ih st2 remap2 st1 remap1 hok
          rcases hbr with ⟨hseen, _, hst, _⟩ | ⟨hseen, _, hst, _⟩ | ⟨hseen, hst, _⟩ <;>
            subst hst
      
      
          · refine ⟨?_, ?_, ?_⟩
            · obtain ⟨L, hL⟩ := hL
              exact ⟨_ :: L, by simpa using hL⟩
            · obtain ⟨W, hW⟩ := hW
              exact ⟨W, by simpa using hW⟩
            · intro j hj
              exact hS j (List.mem_cons_of_mem _ hj)
          · refine ⟨hL, ?_, hS⟩
            obtain ⟨W, hW⟩ := hW
            exact ⟨_ :: W, by simpa using hW⟩
          · refine ⟨?_, ?_, ?_⟩
            · obtain ⟨L, hL⟩ := hL
              exact ⟨_ :: L, by simpa using hL⟩
            · obtain ⟨W, hW⟩ := hW
              exact ⟨W, by simpa using hW⟩
            · intro j hj
              exact hS j (List.mem_cons_of_mem _ hj)

theorem processImages_codomain (reassign : Bool) (path : String) (licR : List (Int × Int)) :
    ∀ (imgs : List CocoImage) (st : ImgState) (remap : List (Int × Int))
      (st1 : ImgState) (remap1 : List (Int × Int)),
      (∀ k v, rlookup remap k = some v → ∃ i ∈ st.images, i.id = v) →
      processImages reassign path licR st remap imgs = .ok (st1, remap1) →
      ∀ k v, rlookup remap1 k = some v → ∃ i ∈ st1.images, i.id = v := by
  intro imgs
  induction imgs with
  | nil =>
      intro st remap st1 remap1 hpre hok
      simp only [processImages] at hok
      cases hok
      exact hpre
  | cons img rest ih =>
      intro st remap st1 remap1 hpre hok
      simp only [processImages] at hok
      cases hstep : processImage reassign path licR st remap img with
      | error e => rw [hstep] at hok; exact Except.noConfusion hok
      | ok p =>
          obtain ⟨st2, remap2⟩ := p
          rw [hstep] at hok
          obtain ⟨fn, lic, _, _, hbr⟩ :=
            processImage_cases reassign path licR st remap img st2 remap2 hstep
          refine ih st2 remap2 st1 remap1 ?_ hok
          rcases hbr with ⟨hseen, _, hst, hr⟩ | ⟨hseen, _, hst, hr⟩ | ⟨hseen, hst, hr⟩ <;>
            subst hst <;> subst hr <;> intro k v hkv
          · rw [rlookup_cons] at hkv
            by_cases hk : k = img.id
            · rw [if_pos hk] at hkv
              cases hkv
              exact ⟨{ img with file_name := fn, license := lic, id := st.next },
                by simp, rfl⟩
            · rw [if_neg hk] at hkv
              obtain ⟨i, hi, hiv⟩ := hpre k v hkv
              exact ⟨i, by simp [hi], hiv⟩
          · obtain ⟨i, hi, hiv⟩ := hpre k v hkv
            exact ⟨i, by simp [hi], hiv⟩
          · rw [rlookup_cons] at hkv
            by_cases hk : k = img.id
            · rw [if_pos hk] at hkv
              cases hkv
              exact ⟨{ img with file_name := fn, license := lic },
                by simp, rfl⟩
            · rw [if_neg hk] at hkv
              obtain ⟨i, hi, hiv⟩ := hpre k v hkv
              exact ⟨i, by simp [hi], hiv⟩

theorem processAnns_refOk (path : String) (cR iR : List (Int × Int))
    (imgsList : List CocoImage)
    (hcod : ∀ k v, rlookup iR k = some v → ∃ i ∈ imgsList, i.id = v) :
    ∀ (anns : List CocoAnn) (st st' : AnnState),
      (∀ a ∈ st.annotations, ∃ i ∈ imgsList, i.id = CocoAnn.imageId a) →
      processAnns path cR iR st anns = .ok st' →
      ∀ a ∈ st'.annotations, ∃ i ∈ imgsList, i.id = CocoAnn.imageId a := by
  intro anns
  induction anns with
  | nil =>
      intro st st' hpre hok
      simp only [processAnns] at hok
      cases hok
      exact hpre
  | cons a as_ ih =>
      intro st st' hpre hok
      simp only [processAnns] at hok
      cases hone : processOneAnn path cR iR st a with
      | error e => rw [hone] at hok; exact Except.noConfusion hok
      | ok st1 =>
          rw [hone] at hok
          refine ih st1 st' ?_ hok
          rcases processOneAnn_shape path cR iR st st1 a hone with
            ⟨_, rfl⟩ | ⟨v, a', hv, hlist, hid⟩
          · exact hpre
          · intro b hb
            rw [hlist] at hb
            rcases List.mem_append.mp hb with hb | hb
            · exact hpre b hb
            · rcases List.mem_singleton.mp hb with rfl
              rw [hid]
              exact hcod _ v hv

/-- Referential integrity of the running state: every accumulated
annotation's image id is the id of an accumulated image. -/
def RefInv (ms : MergeState) : Prop :=
  ∀ a ∈ ms.anns.annotations, ∃ img ∈ ms.imgs.images, img.id = CocoAnn.imageId a

theorem processFile_refInv (reassign : Bool) (st st' : MergeState)
    (pf : String × CocoFile) (hInv : RefInv st)
    (hok : processFile reassign st pf = .ok st') : RefInv st' := by
  simp only [processFile] at hok
  cases himg : processImages reassign pf.1 (processLicenses st.lics pf.2.licenses).2
      st.imgs [] pf.2.images with
  | error e =>
      simp only [himg] at hok
      exact Except.noConfusion hok
  | ok p =>
      obtain ⟨imgs', imgRemap⟩ := p
      simp only [himg] at hok
      cases hann : processAnns pf.1 (processCategories st.cats pf.2.categories).2
          imgRemap st.anns pf.2.annotations with
      | error e =>
          simp only [hann] at hok
          exact Except.noConfusion hok
      | ok anns' =>
          simp only [hann] at hok
          cases hok
          have hcod : ∀ k v, rlookup imgRemap k = some v →
              ∃ i ∈ imgs'.images, i.id = v := by
            refine processImages_codomain reassign pf.1 _ pf.2.images st.imgs []
              imgs' imgRemap ?_ himg
            intro k v hkv
            simp [rlookup] at hkv
          obtain ⟨⟨L, hL⟩, _, _⟩ :=
            processImages_shape reassign pf.1 _ pf.2.images st.imgs [] imgs' imgRemap himg
          refine processAnns_refOk pf.1 _ imgRemap imgs'.images hcod
            pf.2.annotations st.anns anns' ?_ hann
          intro a ha
          obtain ⟨i, hi, hiv⟩ := hInv a ha
          exact ⟨i, by rw [hL]; exact List.mem_append_left _ hi, hiv⟩

theorem mergeFrom_refInv (reassign : Bool) :
    ∀ (files : List (String × CocoFile)) (st st' : MergeState),
      RefInv st → mergeFrom reassign st files = .ok st' → RefInv st' := by
  intro files
  induction files with
  | nil =>
      intro st st' hInv hok
      simp only [mergeFrom] at hok
      cases hok
      exact hInv
  | cons pf rest ih =>
      intro st st' hInv hok
      simp only [mergeFrom] at hok
      cases hfile : processFile reassign st pf with
      | error e => rw [hfile] at hok; exact Except.noConfusion hok
      | ok st1 =>
          rw [hfile] at hok
          exact ih st1 st' (processFile_refInv reassign st st1 pf hInv hfile) hok

/-- C6: an annotation whose image id has no entry in its file's image remap
(because the image was dropped) is discarded silently, with no error and no
state change; and in every merged output every retained annotation's
image id equals the id of some output image. -/
theorem cocomerge_C6 :
    (∀ (path : String) (cR iR : List (Int × Int)) (st : AnnState) (a : CocoAnn),
        rlookup iR a.imageId = none → processOneAnn path cR iR st a = .ok st) ∧
    (∀ (reassign : Bool) (files : List (String × CocoFile)) (st : MergeState),
        mergeFrom reassign initState files = .ok st →
        ∀ a ∈ st.anns.annotations, ∃ img ∈ st.imgs.images,
          img.id = CocoAnn.imageId a) := by
  constructor
  · exact processOneAnn_skip
  · intro reassign files st hok
    have hinit : RefInv initState := by
      intro a ha
      simp [initState] at ha
    exact mergeFrom_refInv reassign files initState st hinit hok

/-- Witness for C6 at a concrete input: an annotation whose image id is
absent from the remap is skipped, and the run on `witFile1` satisfies the
output referential-integrity property. -/
theorem cocomerge_C6_witness :
    processOneAnn "p" [] [(1, 1)]
        { annotations := [], seen := [], next := 0 }
        (.ImageCaptioning { id := 4, image_id := 9, caption := "x" }) =
      .ok { annotations := [], seen := [], next := 0 } ∧
    ∀ a ∈ witState1.anns.annotations, ∃ img ∈ witState1.imgs.images,
      img.id = CocoAnn.imageId a :=
  ⟨cocomerge_C6.1 "p" [] [(1, 1)] { annotations := [], seen := [], next := 0 }
      (.ImageCaptioning { id := 4, image_id := 9, caption := "x" }) (by decide),
   cocomerge_C6.2 false [("d/f.json", witFile1)] witState1 (by decide)⟩

-- Fatal category references (C3) ----------------------------------------------

theorem exceptIsError_map (x : Except MergeError α) (g : α → β) :
    exceptIsError (x.map g) = exceptIsError x := by
  cases x <;> rfl

theorem exceptIsError_eq_true (x : Except MergeError α)
    (h : exceptIsError x = true) : ∃ e, x = .error e := by
  cases x with
  | error e => exact ⟨e, rfl⟩
  | ok y => simp [exceptIsError] at h

theorem reconcileStep_remap (structEq : α → α → Bool) (getId : α → Int)
    (setId : α → Int → α) (st : ReconState α) (r : List (Int × Int)) (x : α) :
    ∃ w, (reconcileStep structEq getId setId st r x).2 = (getId x, w) :: r := by
  unfold reconcileStep
  cases (st.set.find? (fun e => structEq e x)) with
  | some entry => exact ⟨getId entry, rfl⟩
  | none =>
      by_cases hseen : getId x ∈ st.seen
      · exact ⟨getId (setId x st.next), by rw [if_pos hseen]⟩
      · exact ⟨getId x, by rw [if_neg hseen]⟩

theorem reconcileList_remap_keys (structEq : α → α → Bool) (getId : α → Int)
    (setId : α → Int → α) :
    ∀ (cs : List α) (st : ReconState α) (r : List (Int × Int)) (c : Int),
      rlookup r c = none → (∀ x ∈ cs, getId x ≠ c) →
      rlookup (reconcileList structEq getId setId st r cs).2 c = none := by
  intro cs
  induction cs with
  | nil => intro st r c hr _; exact hr
  | cons x xs ih =>
      intro st r c hr hx
      simp only [reconcileList]
      refine ih _ _ c ?_ (fun y hy => hx y (List.mem_cons_of_mem _ hy))
      have hxc : getId x ≠ c := hx x (List.mem_cons_self _ _)
      obtain ⟨w, hw⟩ := reconcileStep_remap structEq getId setId st r x
      rw [hw, rlookup_cons, if_neg (Ne.symm hxc)]
      exact hr

/-- The category remap table the merge builds for a file, from a given
running state. -/
def fileCatRemap (st : MergeState) (f : CocoFile) : List (Int × Int) :=
  (processCategories st.cats f.categories).2

/-- The license remap table the merge builds for a file. -/
def fileLicRemap (st : MergeState) (f : CocoFile) : List (Int × Int) :=
  (processLicenses st.lics f.licenses).2

/-- The image-stage outcome (new image state and image remap table) the
merge computes for a file. -/
def fileImgResult (reassign : Bool) (p : String) (st : MergeState) (f : CocoFile) :
    Except MergeError (ImgState × List (Int × Int)) :=
  processImages reassign p (fileLicRemap st f) st.imgs [] f.images

theorem fileCatRemap_none (st : MergeState) (f : CocoFile) (c : Int)
    (h : c ∉ catIdsOf f) : rlookup (fileCatRemap st f) c = none := by
  unfold fileCatRemap processCategories
  cases hcats : f.categories with
  | none => rfl
  | some cs =>
      refine reconcileList_remap_keys catStructEq CocoCategory.cid CocoCategory.setId
        cs st.cats [] c rfl ?_
      intro x hx he
      exact h (by simp [catIdsOf, hcats]; exact ⟨x, hx, he⟩)

theorem processSegments_badCat (path : String) (cR : List (Int × Int)) :
    ∀ (segs : List CocoPanopticSegmentInfo) (seen : List Int) (next : Int),
      (∃ c ∈ segs.map (·.category_id), rlookup cR c = none) →
      exceptIsError (processSegments path cR segs seen next) = true := by
  intro segs
  induction segs with
  | nil =>
      intro seen next hbad
      simp at hbad
  | cons seg rest ih =>
      intro seen next hbad
      simp only [processSegments]
      cases hcat : rlookup cR seg.category_id with
      | none => rfl
      | some v =>
          obtain ⟨c, hc, hnone⟩ := hbad
          simp only [List.map_cons, List.mem_cons] at hc
          rcases hc with rfl | hc
          · rw [hcat] at hnone
            exact Option.noConfusion hnone
          · have := ih (resolveId seen next seg.id).2.1 (resolveId seen next seg.id).2.2
              ⟨c, hc, hnone⟩
            obtain ⟨e, he⟩ := exceptIsError_eq_true _ this
            rw [he]
            rfl

theorem processOneAnn_badCat (path : String) (cR iR : List (Int × Int))
    (st : AnnState) (a : CocoAnn)
    (himg : (rlookup iR a.imageId).isSome)
    (hbad : ∃ c ∈ annCatRefs a, rlookup cR c = none) :
    exceptIsError (processOneAnn path cR iR st a) = true := by
  cases hv : rlookup iR a.imageId with
  | none => rw [hv] at himg; simp at himg
  | some v =>
      cases a with
      | KeypointDetection ann =>
          obtain ⟨c, hc, hnone⟩ := hbad
          simp only [annCatRefs, List.mem_singleton] at hc
          subst hc
          simp only [processOneAnn, hv, hnone]
          rfl
      | PanopticSegmentation ann =>
          have hseg := processSegments_badCat path cR ann.segments_info st.seen st.next
            (by simpa [annCatRefs] using hbad)
          obtain ⟨e, he⟩ := exceptIsError_eq_true _ hseg
          simp only [processOneAnn, hv, he]
          rfl
      | ImageCaptioning ann =>
          obtain ⟨c, hc, _⟩ := hbad
          simp [annCatRefs] at hc
      | ObjectDetection ann =>
          obtain ⟨c, hc, hnone⟩ := hbad
          simp only [annCatRefs, List.mem_singleton] at hc
          subst hc
          simp only [processOneAnn, hv, hnone]
          rfl
      | DensePose ann =>
          obtain ⟨c, hc, hnone⟩ := hbad
          simp only [annCatRefs, List.mem_singleton] at hc
          subst hc
          simp only [processOneAnn, hv, hnone]
          rfl

theorem processAnns_badAnn (path : String) (cR iR : List (Int × Int)) :
    ∀ (anns : List CocoAnn) (st : AnnState),
      (∃ a ∈ anns, (rlookup iR a.imageId).isSome ∧
        ∃ c ∈ annCatRefs a, rlookup cR c = none) →
      exceptIsError (processAnns path cR iR st anns) = true := by
  intro anns
  induction anns with
  | nil =>
      intro st hbad
      simp at hbad
  | cons a as_ ih =>
      intro st hbad
      simp only [processAnns]
      obtain ⟨b, hb, hbs, hbc⟩ := hbad
      rcases List.mem_cons.mp hb with rfl | hb
      · have := processOneAnn_badCat path cR iR st b hbs hbc
        obtain ⟨e, he⟩ := exceptIsError_eq_true _ this
        rw [he]
        rfl
      · cases hone : processOneAnn path cR iR st a with
        | error e => rfl
        | ok st1 => exact ih st1 ⟨b, hb, hbs, hbc⟩

/-- C3: an input annotation whose category reference (its `category_id`, or
for a panoptic annotation some segment's `category_id`) has no entry in its
own file's category remap table, while its image survived the image stage,
makes the whole merge run abort with an error: from any running state, the
run over the remaining files produces no merged output file. -/
theorem cocomerge_C3 (reassign : Bool) (st : MergeState) (p : String) (f : CocoFile)
    (rest : List (String × CocoFile)) (a : CocoAnn) (c : Int)
    (ha : a ∈ f.annotations) (hc : c ∈ annCatRefs a) (hnc : c ∉ catIdsOf f)
    (hsurv : ∃ out, fileImgResult reassign p st f = .ok out ∧
      (rlookup out.2 a.imageId).isSome) :
    exceptIsError (runMergeFrom reassign st ((p, f) :: rest)) = true := by
  obtain ⟨out, hout, hsome⟩ := hsurv
  unfold runMergeFrom
  rw [exceptIsError_map]
  have hbadAnns : exceptIsError (processAnns p (fileCatRemap st f) out.2 st.anns
      f.annotations) = true := by
    refine processAnns_badAnn p (fileCatRemap st f) out.2 f.annotations st.anns ?_
    exact ⟨a, ha, hsome, c, hc, fileCatRemap_none st f c hnc⟩
  obtain ⟨e, he⟩ := exceptIsError_eq_true _ hbadAnns
  have hfile : processFile reassign st (p, f) = .error e := by
    simp only [processFile]
    have hout' : processImages reassign p (processLicenses st.lics f.licenses).2
        st.imgs [] f.images = .ok out := hout
    obtain ⟨imgs', imgRemap⟩ := out
    simp only [hout']
    simp only [fileCatRemap] at he
    simp only [he]
  simp only [mergeFrom, hfile]
  rfl

/-- Input file of the C3 witness: its only annotation references category id
7, which the file does not declare, while its image (id 5) survives. -/
def witFile2 : CocoFile :=
  { images := [{ id := 5, width := 1, height := 1, file_name := "b.jpg",
                 license := none, rest := 0 }],
    annotations := [.ObjectDetection { id := 1, image_id := 5, category_id := 7, rest := 0 }],
    categories := some [.ObjectDetection { id := 0, name := "c", supercategory := "s" }],
    licenses := none }

/-- Witness for C3 at a concrete input: merging `witFile2` aborts with an
error and produces no output file. -/
theorem cocomerge_C3_witness :
    exceptIsError (runMergeFrom false initState [("f.json", witFile2)]) = true :=
  cocomerge_C3 false initState "f.json" witFile2 []
    (.ObjectDetection { id := 1, image_id := 5, category_id := 7, rest := 0 }) 7
    (by decide) (by decide) (by decide)
    ⟨({ images := [{ id := 5, width := 1, height := 1, file_name := "b.jpg",
                     license := none, rest := 0 }],
        seen := [5], next := 6, warnings := [] }, [(5, 5)]),
      by decide, by decide⟩

-- Dropped colliding images (C4) ----------------------------------------------

theorem processImages_drop_aux (p : String) (licR : List (Int × Int)) :
    ∀ (imgs : List CocoImage) (st : ImgState) (remap0 : List (Int × Int))
      (stOut : ImgState) (remap : List (Int × Int)) (target : Int),
      target ∈ st.seen → rlookup remap0 target = none →
      processImages false p licR st remap0 imgs = .ok (stOut, remap) →
      rlookup remap target = none ∧
      (∃ added, stOut.images = st.images ++ added ∧ ∀ x ∈ added, x.id ≠ target) ∧
      (∀ w ∈ st.warnings, w ∈ stOut.warnings) ∧
      (∀ i ∈ imgs, i.id = target → (p, target) ∈ stOut.warnings) := by
  intro imgs
  induction imgs with
  | nil =>
      intro st remap0 stOut remap target hseen hr0 hok
      simp only [processImages] at hok
      cases hok
      refine ⟨hr0, ⟨[], by simp⟩, fun w hw => hw, ?_⟩
      intro i hi
      simp at hi
  | cons img rest ih =>
      intro st remap0 stOut remap target hseen hr0 hok
      simp only [processImages] at hok
      cases hstep : processImage false p licR st remap0 img with
      | error e => rw [hstep] at hok; exact Except.noConfusion hok
      | ok pr =>
          obtain ⟨st2, remap2⟩ := pr
          rw [hstep] at hok
          obtain ⟨fn, lic, _, _, hbr⟩ :=
            processImage_cases false p licR st remap0 img st2 remap2 hstep
          rcases hbr with ⟨_, habs, _, _⟩ | ⟨hin, _, hst, hrm⟩ | ⟨hnin, hst, hrm⟩
          · exact Bool.noConfusion habs
          · subst hst; subst hrm
            obtain ⟨h1, ⟨added, ha, hax⟩, h3, h4⟩ :=
              ih { st with warnings := st.warnings ++ [(p, img.id)] } remap2
                stOut remap target hseen hr0 hok
            refine ⟨h1, ⟨added, ha, hax⟩, ?_, ?_⟩
            · intro w hw
              exact h3 w (by simp [hw])
            · intro i hi hit
              rcases List.mem_cons.mp hi with rfl | hi
              · rw [← hit]
                exact h3 (p, i.id) (by simp)
              · exact h4 i hi hit
          · subst hst; subst hrm
            have hne : img.id ≠ target := fun he => hnin (he ▸ hseen)
            have hr0' : rlookup ((img.id, img.id) :: remap0) target = none := by
              rw [rlookup_cons, if_neg (Ne.symm hne)]
              exact hr0
            obtain ⟨h1, ⟨added, ha, hax⟩, h3, h4⟩ :=
              ih _ _ stOut remap target (List.mem_cons_of_mem _ hseen) hr0' hok
            refine ⟨h1, ?_, ?_, ?_⟩
            · refine ⟨{ img with file_name := fn, license := lic } :: added,
                by simpa using ha, ?_⟩
              intro x hx
              rcases List.mem_cons.mp hx with rfl | hx
              · exact hne
              · exact hax x hx
            · exact h3
            · intro i hi hit
              rcases List.mem_cons.mp hi with rfl | hi
              · exact absurd hit hne
              · exact h4 i hi hit

/-- C4: with reassignment disabled, an image whose id is already claimed in
the output is dropped: no entry for its id is added to the file's image
remap, the previously placed images are untouched and no newly placed image
carries the contested id, a warning naming the file and the id is emitted,
and every annotation referencing the dropped id is skipped (discarded with
no state change). -/
theorem cocomerge_C4 (p : String) (licR : List (Int × Int)) (st : ImgState)
    (imgs : List CocoImage) (img : CocoImage)
    (stOut : ImgState) (remap : List (Int × Int))
    (hmem : img ∈ imgs) (hseen : img.id ∈ st.seen)
    (hok : processImages false p licR st [] imgs = .ok (stOut, remap)) :
    rlookup remap img.id = none ∧
    (∃ added, stOut.images = st.images ++ added ∧ ∀ x ∈ added, x.id ≠ img.id) ∧
    (p, img.id) ∈ stOut.warnings ∧
    (∀ (a : CocoAnn), CocoAnn.imageId a = img.id →
      ∀ (cR : List (Int × Int)) (ast : AnnState),
        processOneAnn p cR remap ast a = .ok ast) := by
  obtain ⟨h1, h2, _, h4⟩ :=
    processImages_drop_aux p licR imgs st [] stOut remap img.id hseen rfl hok
  refine ⟨h1, h2, h4 img hmem rfl, ?_⟩
  intro a hid cR ast
  refine processOneAnn_skip p cR remap ast a ?_
  rw [hid]
  exact h1

/-- Previously placed image used by the C4 witness. -/
def c4st : ImgState :=
  { images := [{ id := 3, width := 1, height := 1, file_name := "c.jpg",
                 license := none, rest := 1 }],
    seen := [3], next := 4, warnings := [] }

/-- Colliding image of the C4 witness (same id 3, different content). -/
def c4img : CocoImage :=
  { id := 3, width := 9, height := 9, file_name := "d.jpg", license := none, rest := 2 }

/-- Image state after the C4 witness run: the image was dropped and a
warning naming the file and the id was recorded. -/
def c4out : ImgState :=
  { images := [{ id := 3, width := 1, height := 1, file_name := "c.jpg",
                 license := none, rest := 1 }],
    seen := [3], next := 4, warnings := [("g.json", 3)] }

/-- Witness for C4 at a concrete input: the colliding image of `c4img` is
dropped, its id gets no remap entry, the warning is emitted, and any
annotation referencing it is skipped. -/
theorem cocomerge_C4_witness :
    rlookup [] c4img.id = none ∧
    (∃ added, c4out.images = c4st.images ++ added ∧ ∀ x ∈ added, x.id ≠ c4img.id) ∧
    ("g.json", c4img.id) ∈ c4out.warnings ∧
    (∀ (a : CocoAnn), CocoAnn.imageId a = c4img.id →
      ∀ (cR : List (Int × Int)) (ast : AnnState),
        processOneAnn "g.json" cR [] ast a = .ok ast) :=
  cocomerge_C4 "g.json" [] c4st [c4img] c4img c4out []
    (by decide) (by decide) (by decide)

-- Reassigned colliding images (C5) -------------------------------------------

theorem processImages_append (reassign : Bool) (p : String) (licR : List (Int × Int)) :
    ∀ (l1 l2 : List CocoImage) (st : ImgState) (remap : List (Int × Int)),
      processImages reassign p licR st remap (l1 ++ l2) =
        match processImages reassign p licR st remap l1 with
        | .error e => .error e
        | .ok pr => processImages reassign p licR pr.1 pr.2 l2 := by
  intro l1
  induction l1 with
  | nil => intro l2 st remap; rfl
  | cons img rest ih =>
      intro l2 st remap
      simp only [List.cons_append, processImages]
      cases processImage reassign p licR st remap img with
      | error e => rfl
      | ok pr => exact ih l2 pr.1 pr.2

theorem processImages_bound (reassign : Bool) (p : String) (licR : List (Int × Int)) :
    ∀ (imgs : List CocoImage) (st : ImgState) (remap0 : List (Int × Int))
      (st1 : ImgState) (remap1 : List (Int × Int)),
      (∀ j ∈ st.seen, j < st.next) →
      processImages reassign p licR st remap0 imgs = .ok (st1, remap1) →
      ∀ j ∈ st1.seen, j < st1.next := by
  intro imgs
  induction imgs with
  | nil =>
      intro st remap0 st1 remap1 hb hok
      simp only [processImages] at hok
      cases hok
      exact hb
  | cons img rest ih =>
      intro st remap0 st1 remap1 hb hok
      simp only [processImages] at hok
      cases hstep : processImage reassign p licR st remap0 img with
      | error e => rw [hstep] at hok; exact Except.noConfusion hok
      | ok pr =>
          obtain ⟨st2, remap2⟩ := pr
          rw [hstep] at hok
          obtain ⟨fn, lic, _, _, hbr⟩ :=
            processImage_cases reassign p licR st remap0 img st2 remap2 hstep
          refine ih st2 remap2 st1 remap1 ?_ hok
          rcases hbr with ⟨hi, _, hst, _⟩ | ⟨hi, _, hst, _⟩ | ⟨hi, hst, _⟩ <;> subst hst
          · intro j hj
            rcases List.mem_cons.mp hj with rfl | hj
            · exact lt_add_one st.next
            · exact lt_trans (hb _ hj) (lt_add_one st.next)
          · exact hb
          · intro j hj
            rcases List.mem_cons.mp hj with rfl | hj
            · show img.id < if img.id ≥ st.next then img.id + 1 else st.next
              split <;> omega
            · show j < if img.id ≥ st.next then img.id + 1 else st.next
              have := hb _ hj
              split <;> omega

theorem processImages_remap_none (reassign : Bool) (p : String) (licR : List (Int × Int)) :
    ∀ (imgs : List CocoImage) (st : ImgState) (remap0 : List (Int × Int))
      (st1 : ImgState) (remap1 : List (Int × Int)) (k : Int),
      rlookup remap0 k = none → (∀ x ∈ imgs, x.id ≠ k) →
      processImages reassign p licR st remap0 imgs = .ok (st1, remap1) →
      rlookup remap1 k = none := by
  intro imgs
  induction imgs with
  | nil =>
      intro st remap0 st1 remap1 k h0 _ hok
      simp only [processImages] at hok
      cases hok
      exact h0
  | cons img rest ih =>
      intro st remap0 st1 remap1 k h0 hne hok
      simp only [processImages] at hok
      cases hstep : processImage reassign p licR st remap0 img with
      | error e => rw [hstep] at hok; exact Except.noConfusion hok
      | ok pr =>
          obtain ⟨st2, remap2⟩ := pr
          rw [hstep] at hok
          obtain ⟨fn, lic, _, _, hbr⟩ :=
            processImage_cases reassign p licR st remap0 img st2 remap2 hstep
          have hik : img.id ≠ k := hne img (List.mem_cons_self _ _)
          refine ih st2 remap2 st1 remap1 k ?_
            (fun x hx => hne x (List.mem_cons_of_mem _ hx)) hok
          rcases hbr with ⟨_, _, _, hr⟩ | ⟨_, _, _, hr⟩ | ⟨_, _, hr⟩ <;> subst hr
          · rw [rlookup_cons, if_neg (Ne.symm hik)]; exact h0
          · exact h0
          · rw [rlookup_cons, if_neg (Ne.symm hik)]; exact h0

theorem processImages_remap_keep (reassign : Bool) (p : String) (licR : List (Int × Int)) :
    ∀ (imgs : List CocoImage) (st : ImgState) (remap0 : List (Int × Int))
      (st1 : ImgState) (remap1 : List (Int × Int)) (k v : Int),
      rlookup remap0 k = some v → (∀ x ∈ imgs, x.id ≠ k) →
      processImages reassign p licR st remap0 imgs = .ok (st1, remap1) →
      rlookup remap1 k = some v := by
  intro imgs
  induction imgs with
  | nil =>
      intro st remap0 st1 remap1 k v h0 _ hok
      simp only [processImages] at hok
      cases hok
      exact h0
  | cons img rest ih =>
      intro st remap0 st1 remap1 k v h0 hne hok
      simp only [processImages] at hok
      cases hstep : processImage reassign p licR st remap0 img with
      | error e => rw [hstep] at hok; exact Except.noConfusion hok
      | ok pr =>
          obtain ⟨st2, remap2⟩ := pr
          rw [hstep] at hok
          obtain ⟨fn, lic, _, _, hbr⟩ :=
            processImage_cases reassign p licR st remap0 img st2 remap2 hstep
          have hik : img.id ≠ k := hne img (List.mem_cons_self _ _)
          refine ih st2 remap2 st1 remap1 k v ?_
            (fun x hx => hne x (List.mem_cons_of_mem _ hx)) hok
          rcases hbr with ⟨_, _, _, hr⟩ | ⟨_, _, _, hr⟩ | ⟨_, _, hr⟩ <;> subst hr
          · rw [rlookup_cons, if_neg (Ne.symm hik)]; exact h0
          · exact h0
          · rw [rlookup_cons, if_neg (Ne.symm hik)]; exact h0

/-- C5: with reassignment enabled, an image whose id is already claimed in
the output is reassigned a fresh id: the file's remap sends the old id to a
new id different from the old one and from every previously claimed id, the
reassigned image is placed in the output while all previously placed images
are kept (so both images appear under two distinct ids), and every
annotation of the file referencing the old id is retargeted to the new id. -/
theorem cocomerge_C5 (p : String) (licR : List (Int × Int)) (st : ImgState)
    (pre post : List CocoImage) (img : CocoImage)
    (stOut : ImgState) (remap : List (Int × Int))
    (hb : ∀ j ∈ st.seen, j < st.next)
    (hseen : img.id ∈ st.seen)
    (hpost : ∀ x ∈ post, x.id ≠ img.id)
    (hok : processImages true p licR st [] (pre ++ img :: post) = .ok (stOut, remap)) :
    ∃ nid, rlookup remap img.id = some nid ∧ nid ≠ img.id ∧ nid ∉ st.seen ∧
      (∃ i' ∈ stOut.images, i'.id = nid ∧ i'.width = img.width ∧
        i'.height = img.height ∧ i'.rest = img.rest) ∧
      (∀ i₀ ∈ st.images, i₀ ∈ stOut.images) ∧
      (∀ (a : CocoAnn) (cR : List (Int × Int)) (ast ast' : AnnState),
        CocoAnn.imageId a = img.id → processOneAnn p cR remap ast a = .ok ast' →
        ∃ a', ast'.annotations = ast.annotations ++ [a'] ∧
          CocoAnn.imageId a' = nid) := by
  rw [processImages_append] at hok
  cases hpre1 : processImages true p licR st [] pre with
  | error e => rw [hpre1] at hok; exact Except.noConfusion hok
  | ok pr1 =>
      obtain ⟨st1, remap1⟩ := pr1
      rw [hpre1] at hok
      have hb1 : ∀ j ∈ st1.seen, j < st1.next :=
        processImages_bound true p licR pre st [] st1 remap1 hb hpre1
      obtain ⟨⟨L1, hL1⟩, _, hSm⟩ :=
        processImages_shape true p licR pre st [] st1 remap1 hpre1
      have hseen1 : img.id ∈ st1.seen := hSm _ hseen
      simp only [processImages] at hok
      cases hstep : processImage true p licR st1 remap1 img with
      | error e => rw [hstep] at hok; exact Except.noConfusion hok
      | ok pr2 =>
          obtain ⟨st2, remap2⟩ := pr2
          rw [hstep] at hok
          obtain ⟨fn, lic, _, _, hbr⟩ :=
            processImage_cases true p licR st1 remap1 img st2 remap2 hstep
          rcases hbr with ⟨_, _, hst, hrm⟩ | ⟨_, hfalse, _, _⟩ | ⟨hnin, _, _⟩
          · subst hst; subst hrm
            have hlook : rlookup remap img.id = some st1.next := by
              refine processImages_remap_keep true p licR post _ _ stOut remap
                img.id st1.next ?_ hpost hok
              rw [rlookup_cons, if_pos rfl]
            obtain ⟨⟨L2, hL2⟩, _, _⟩ :=
              processImages_shape true p licR post _ _ stOut remap hok
            refine ⟨st1.next, hlook, ?_, ?_, ?_, ?_, ?_⟩
            · intro he
              have := hb1 _ hseen1
              omega
            · intro hmem
              have := hb1 _ (hSm _ hmem)
              omega
            · refine ⟨{ img with file_name := fn, license := lic, id := st1.next },
                ?_, rfl, rfl, rfl, rfl⟩
              rw [hL2]
              exact List.mem_append_left _ (List.mem_append_right _ (by simp))
            · intro i0 hi0
              rw [hL2]
              refine List.mem_append_left _ (List.mem_append_left _ ?_)
              rw [hL1]
              exact List.mem_append_left _ hi0
            · intro a cR ast ast' hid hokA
              rcases processOneAnn_shape p cR remap ast ast' a hokA with
                ⟨hnone, _⟩ | ⟨v, a', hv', hl, hid'⟩
              · rw [hid, hlook] at hnone
                exact Option.noConfusion hnone
              · rw [hid, hlook] at hv'
                have hveq := Option.some.inj hv'
                subst hveq
                exact ⟨a', hl, hid'⟩
          · exact Bool.noConfusion hfalse
          · exact absurd hseen1 hnin

/-- Image state of the C5 witness before the colliding file: one image with
id 7 already placed. -/
def c5st : ImgState :=
  { images := [{ id := 7, width := 1, height := 1, file_name := "f.jpg",
                 license := none, rest := 0 }],
    seen := [7], next := 8, warnings := [] }

/-- Colliding image of the C5 witness (same id 7, different content). -/
def c5img : CocoImage :=
  { id := 7, width := 5, height := 6, file_name := "e.jpg", license := none, rest := 9 }

/-- Image state after the C5 witness run: both images are present, the
second one under the fresh id 8. -/
def c5out : ImgState :=
  { images := [{ id := 7, width := 1, height := 1, file_name := "f.jpg",
                 license := none, rest := 0 },
               { id := 8, width := 5, height := 6, file_name := "e.jpg",
                 license := none, rest := 9 }],
    seen := [8, 7], next := 9, warnings := [] }

/-- Witness for C5 at a concrete input: the colliding image with id 7 is
reassigned the fresh id 8, both images appear, and annotations referencing
id 7 are retargeted to 8. -/
theorem cocomerge_C5_witness :
    ∃ nid, rlookup [(7, 8)] 7 = some nid ∧ nid ≠ 7 ∧ nid ∉ ([7] : List Int) ∧
      (∃ i' ∈ c5out.images, i'.id = nid ∧ i'.width = c5img.width ∧
        i'.height = c5img.height ∧ i'.rest = c5img.rest) ∧
      (∀ i₀ ∈ c5st.images, i₀ ∈ c5out.images) ∧
      (∀ (a : CocoAnn) (cR : List (Int × Int)) (ast ast' : AnnState),
        CocoAnn.imageId a = c5img.id →
        processOneAnn "h.json" cR [(7, 8)] ast a = .ok ast' →
        ∃ a', ast'.annotations = ast.annotations ++ [a'] ∧
          CocoAnn.imageId a' = nid) :=
  cocomerge_C5 "h.json" [] c5st [] [] c5img c5out [(7, 8)]
    (by decide) (by decide) (by decide) (by decide)

-- Pass-through behaviour on fresh ids (C7, C8, C9) ----------------------------

/-- The category list of a file (empty when the optional array is absent). -/
def catsOf (f : CocoFile) : List CocoCategory := f.categories.getD []

/-- The license list of a file (empty when the optional array is absent). -/
def licsOf (f : CocoFile) : List CocoLicense := f.licenses.getD []

/-- What the image stage does to one image when it is accepted: the
`file_name` is resolved against the source file's parent directory and the
license reference is pushed through the license remap. -/
def resolvedImage (p : String) (licR : List (Int × Int)) (img : CocoImage) : CocoImage :=
  { img with
      file_name := if pathIsAbsolute img.file_name then img.file_name
                   else pathJoin ((pathParent p).getD "") img.file_name,
      license := img.license.map (fun l => (rlookup licR l).getD l) }

/-- The pure file-name resolution step alone (licenses untouched); this is
what remains of the image rewrite when the license remap is the identity. -/
def resolvedImageName (p : String) (img : CocoImage) : CocoImage :=
  { img with
      file_name := if pathIsAbsolute img.file_name then img.file_name
                   else pathJoin ((pathParent p).getD "") img.file_name }

/-- What the annotation stage does to one panoptic segment when its id is
fresh: only the category reference is remapped. -/
def retargetSeg (cR : List (Int × Int)) (s : CocoPanopticSegmentInfo) :
    CocoPanopticSegmentInfo :=
  { s with category_id := (rlookup cR s.category_id).getD s.category_id }

/-- What the annotation stage does to one annotation when all its ids are
fresh: the image id and the category reference(s) are remapped, everything
else is cloned. -/
def retargetAnn (cR iR : List (Int × Int)) : CocoAnn → CocoAnn
  | .KeypointDetection ann =>
      .KeypointDetection { ann with
        image_id := (rlookup iR ann.image_id).getD ann.image_id,
        category_id := (rlookup cR ann.category_id).getD ann.category_id }
  | .PanopticSegmentation ann =>
      .PanopticSegmentation { ann with
        image_id := (rlookup iR ann.image_id).getD ann.image_id,
        segments_info := ann.segments_info.map (retargetSeg cR) }
  | .ImageCaptioning ann =>
      .ImageCaptioning { ann with
        image_id := (rlookup iR ann.image_id).getD ann.image_id }
  | .ObjectDetection ann =>
      .ObjectDetection { ann with
        image_id := (rlookup iR ann.image_id).getD ann.image_id,
        category_id := (rlookup cR ann.category_id).getD ann.category_id }
  | .DensePose ann =>
      .DensePose { ann with
        image_id := (rlookup iR ann.image_id).getD ann.image_id,
        category_id := (rlookup cR ann.category_id).getD ann.category_id }

/-- A well-formed COCO file: ids internally distinct in every namespace
(annotation and segment ids share one), categories and licenses pairwise
structurally distinct, and all references (image, category, license)
resolving inside the file. -/
def WellFormedFile (f : CocoFile) : Prop :=
  (imageIds f.images).Nodup ∧
  (catIdsOf f).Nodup ∧
  (licIdsOf f).Nodup ∧
  (allAnnIds f.annotations).Nodup ∧
  List.Pairwise (fun a b => catStructEq a b = false) (catsOf f) ∧
  List.Pairwise (fun a b => licStructEq a b = false) (licsOf f) ∧
  (∀ a ∈ f.annotations, CocoAnn.imageId a ∈ imageIds f.images) ∧
  (∀ a ∈ f.annotations, ∀ c ∈ annCatRefs a, c ∈ catIdsOf f) ∧
  (∀ i ∈ f.images, ∀ l, i.license = some l → l ∈ licIdsOf f)

/-- Disjointness of the id spaces of two files in every namespace, plus
structural distinctness of their categories and licenses across the files. -/
def DisjointFiles (f1 f2 : CocoFile) : Prop :=
  (∀ i ∈ catIdsOf f1, i ∉ catIdsOf f2) ∧
  (∀ i ∈ licIdsOf f1, i ∉ licIdsOf f2) ∧
  (∀ i ∈ imageIds f1.images, i ∉ imageIds f2.images) ∧
  (∀ i ∈ allAnnIds f1.annotations, i ∉ allAnnIds f2.annotations) ∧
  (∀ c1 ∈ catsOf f1, ∀ c2 ∈ catsOf f2, catStructEq c1 c2 = false) ∧
  (∀ l1 ∈ licsOf f1, ∀ l2 ∈ licsOf f2, licStructEq l1 l2 = false)

/-- The value of a `next_unseen` counter after accepting a list of explicit
ids (cocomerge.rs: `if id >= next { next = id + 1 }` per accepted entry). -/
def nextCounter (n : Int) : List Int → Int
  | [] => n
  | i :: is_ => nextCounter (if i ≥ n then i + 1 else n) is_

theorem resolveFileName_ok_eq (p q fn : String)
    (h : resolveFileName p q = .ok fn) :
    fn = if pathIsAbsolute q then q else pathJoin ((pathParent p).getD "") q := by
  unfold resolveFileName at h
  by_cases habs : pathIsAbsolute q
  · rw [if_pos habs] at h
    rw [if_pos habs]
    exact (Except.ok.inj h).symm
  · rw [if_neg habs] at h
    rw [if_neg habs]
    cases hp : pathParent p with
    | none => rw [hp] at h; exact Except.noConfusion h
    | some par =>
        rw [hp] at h
        simpa using (Except.ok.inj h).symm

theorem resolveLicense_ok_eq (licR : List (Int × Int)) (p : String)
    (img : CocoImage) (lic : Option Int)
    (h : resolveLicense licR p img = .ok lic) :
    lic = img.license.map (fun l => (rlookup licR l).getD l) := by
  cases hl : img.license with
  | none =>
      simp only [resolveLicense, hl] at h
      simp [hl]
      exact (Except.ok.inj h).symm
  | some l =>
      cases hr : rlookup licR l with
      | none =>
          simp only [resolveLicense, hl, hr] at h
          exact Except.noConfusion h
      | some v =>
          simp only [resolveLicense, hl, hr] at h
          simp [hl, hr]
          exact (Except.ok.inj h).symm

theorem catStructEq_refl (c : CocoCategory) : catStructEq c c = true := by
  cases c <;> simp [catStructEq]

theorem catStructEq_setId (c : CocoCategory) (n : Int) :
    catStructEq (CocoCategory.setId c n) c = true := by
  cases c <;> simp [catStructEq, CocoCategory.setId]

theorem licStructEq_refl (l : CocoLicense) : licStructEq l l = true := by
  simp [licStructEq]

theorem licStructEq_setId (l : CocoLicense) (n : Int) :
    licStructEq (CocoLicense.setId l n) l = true := by
  simp [licStructEq, CocoLicense.setId]

theorem rlookup_isSome_keys (r : List (Int × Int)) (k : Int)
    (h : (rlookup r k).isSome) : k ∈ r.map Prod.fst := by
  cases hr : rlookup r k with
  | none => rw [hr] at h; simp at h
  | some v =>
      have := rlookup_mem r k v hr
      exact List.mem_map.mpr ⟨(k, v), this, rfl⟩

theorem rlookup_idPairs_reverse (l : List Int) (k : Int) (hk : k ∈ l) :
    rlookup ((l.map (fun i => (i, i))).reverse) k = some k := by
  refine rlookup_id_pairs _ k ?_ ?_
  · intro e he
    rw [List.mem_reverse] at he
    obtain ⟨i, _, rfl⟩ := List.mem_map.mp he
    rfl
  · rw [List.map_reverse, List.mem_reverse]
    refine List.mem_map.mpr ⟨(k, k), ?_, rfl⟩
    exact List.mem_map.mpr ⟨k, hk, rfl⟩

theorem reconcileList_fresh (structEq : α → α → Bool) (getId : α → Int)
    (setId : α → Int → α) :
    ∀ (cs : List α) (st : ReconState α) (r0 : List (Int × Int)),
      (∀ c ∈ cs, ∀ e ∈ st.set, structEq e c = false) →
      (∀ c ∈ cs, getId c ∉ st.seen) →
      (cs.map getId).Nodup →
      List.Pairwise (fun a b => structEq a b = false) cs →
      reconcileList structEq getId setId st r0 cs =
        ({ set := st.set ++ cs,
           seen := (cs.map getId).reverse ++ st.seen,
           next := nextCounter st.next (cs.map getId) },
         (cs.map (fun c => (getId c, getId c))).reverse ++ r0) := by
  intro cs
  induction cs with
  | nil =>
      intro st r0 _ _ _ _
      simp [reconcileList, nextCounter]
  | cons c cs ih =>
      intro st r0 hmiss hfresh hnd hpw
      obtain ⟨hhead, htail⟩ :
          (∀ x ∈ cs, ¬ getId x = getId c) ∧ (List.map getId cs).Nodup := by
        simpa using hnd
      have hfind : st.set.find? (fun e => structEq e c) = none := by
        rw [List.find?_eq_none]
        intro e he
        simp [hmiss c (List.mem_cons_self _ _) e he]
      have hseen : getId c ∉ st.seen := hfresh c (List.mem_cons_self _ _)
      simp only [reconcileList, reconcileStep, hfind, hseen, ite_false, if_neg,
        not_false_iff]
      rw [ih { set := st.set ++ [c], seen := getId c :: st.seen,
               next := if getId c ≥ st.next then getId c + 1 else st.next }
          ((getId c, getId c) :: r0) ?_ ?_ ?_ ?_]
      · simp [nextCounter, List.append_assoc]
      · intro c' hc' e he
        rcases List.mem_append.mp he with he | he
        · exact hmiss c' (List.mem_cons_of_mem _ hc') e he
        · rcases List.mem_singleton.mp he with rfl
          exact List.rel_of_pairwise_cons hpw hc'
      · intro c' hc'
        simp only [List.mem_cons, not_or]
        exact ⟨fun he => hhead c' hc' he, hfresh c' (List.mem_cons_of_mem _ hc')⟩
      · exact htail
      · exact (List.pairwise_cons.mp hpw).2

theorem reconcileStep_set (structEq : α → α → Bool) (getId : α → Int)
    (setId : α → Int → α) (st : ReconState α) (r : List (Int × Int)) (x : α) :
    ∃ L, (reconcileStep structEq getId setId st r x).1.set = st.set ++ L := by
  unfold reconcileStep
  cases (st.set.find? (fun e => structEq e x)) with
  | some entry => exact ⟨[], by simp⟩
  | none =>
      by_cases hseen : getId x ∈ st.seen
      · exact ⟨[setId x st.next], by rw [if_pos hseen]⟩
      · exact ⟨[x], by rw [if_neg hseen]⟩

theorem reconcileList_set_mono (structEq : α → α → Bool) (getId : α → Int)
    (setId : α → Int → α) :
    ∀ (cs : List α) (st : ReconState α) (r0 : List (Int × Int)),
      ∃ L, (reconcileList structEq getId setId st r0 cs).1.set = st.set ++ L := by
  intro cs
  induction cs with
  | nil => intro st r0; exact ⟨[], by simp [reconcileList]⟩
  | cons c cs ih =>
      intro st r0
      simp only [reconcileList]
      obtain ⟨L1, hL1⟩ := reconcileStep_set structEq getId setId st r0 c
      obtain ⟨L2, hL2⟩ := ih (reconcileStep structEq getId setId st r0 c).1
        (reconcileStep structEq getId setId st r0 c).2
      exact ⟨L1 ++ L2, by rw [hL2, hL1, List.append_assoc]⟩

theorem reconcileStep_covers (structEq : α → α → Bool) (getId : α → Int)
    (setId : α → Int → α)
    (hrefl : ∀ c, structEq c c = true)
    (hsetrefl : ∀ c n, structEq (setId c n) c = true)
    (st : ReconState α) (r : List (Int × Int)) (c : α) :
    ∃ e ∈ (reconcileStep structEq getId setId st r c).1.set, structEq e c = true := by
  unfold reconcileStep
  cases hfind : (st.set.find? (fun e => structEq e c)) with
  | some entry =>
      have hp := List.find?_some hfind
      exact ⟨entry, List.mem_of_find?_eq_some hfind, by simpa using hp⟩
  | none =>
      by_cases hseen : getId c ∈ st.seen
      · rw [if_pos hseen]
        exact ⟨setId c st.next, by simp, hsetrefl c st.next⟩
      · rw [if_neg hseen]
        exact ⟨c, by simp, hrefl c⟩

theorem reconcileList_covered (structEq : α → α → Bool) (getId : α → Int)
    (setId : α → Int → α)
    (hrefl : ∀ c, structEq c c = true)
    (hsetrefl : ∀ c n, structEq (setId c n) c = true) :
    ∀ (cs : List α) (st : ReconState α) (r0 : List (Int × Int)),
      ∀ c ∈ cs, ∃ e ∈ (reconcileList structEq getId setId st r0 cs).1.set,
        structEq e c = true := by
  intro cs
  induction cs with
  | nil => intro st r0 c hc; simp at hc
  | cons c0 cs ih =>
      intro st r0 c hc
      rcases List.mem_cons.mp hc with rfl | hc
      · obtain ⟨L, hL⟩ := reconcileList_set_mono structEq getId setId cs
          (reconcileStep structEq getId setId st r0 c).1
          (reconcileStep structEq getId setId st r0 c).2
        obtain ⟨e, he, hec⟩ :=
          reconcileStep_covers structEq getId setId hrefl hsetrefl st r0 c
        refine ⟨e, ?_, hec⟩
        simp only [reconcileList]
        rw [hL]
        exact List.mem_append_left _ he
      · simp only [reconcileList]
        exact ih _ _ c hc

theorem reconcileList_hit (structEq : α → α → Bool) (getId : α → Int)
    (setId : α → Int → α) :
    ∀ (cs : List α) (st : ReconState α) (r0 : List (Int × Int)),
      (∀ c ∈ cs, ∃ e ∈ st.set, structEq e c = true) →
      (reconcileList structEq getId setId st r0 cs).1 = st ∧
      (∀ c ∈ cs, (rlookup (reconcileList structEq getId setId st r0 cs).2
        (getId c)).isSome) ∧
      (∀ k, (rlookup r0 k).isSome →
        (rlookup (reconcileList structEq getId setId st r0 cs).2 k).isSome) := by
  intro cs
  induction cs with
  | nil =>
      intro st r0 _
      refine ⟨rfl, ?_, fun k hk => hk⟩
      intro c hc
      simp at hc
  | cons c0 cs ih =>
      intro st r0 hhit
      obtain ⟨e, he, hee⟩ := hhit c0 (List.mem_cons_self _ _)
      have hfindSome : (st.set.find? (fun x => structEq x c0)).isSome := by
        rw [List.find?_isSome]
        exact ⟨e, he, by simp [hee]⟩
      cases hf : st.set.find? (fun x => structEq x c0) with
      | none => rw [hf] at hfindSome; simp at hfindSome
      | some entry =>
          simp only [reconcileList, reconcileStep, hf]
          obtain ⟨h1, h2, h3⟩ := ih st ((getId c0, getId entry) :: r0)
            (fun c hc => hhit c (List.mem_cons_of_mem _ hc))
          refine ⟨h1, ?_, ?_⟩
          · intro c hc
            rcases List.mem_cons.mp hc with rfl | hc
            · refine h3 (getId c) ?_
              rw [rlookup_cons, if_pos rfl]
              rfl
            · exact h2 c hc
          · intro k hk
            refine h3 k ?_
            exact rlookup_isSome_cons r0 k (getId c0) (getId entry) hk

theorem processImages_fresh (reassign : Bool) (p : String) (licR : List (Int × Int)) :
    ∀ (imgs : List CocoImage) (st : ImgState) (remap0 : List (Int × Int))
      (st1 : ImgState) (remap1 : List (Int × Int)),
      (∀ x ∈ imgs, x.id ∉ st.seen) → (imageIds imgs).Nodup →
      processImages reassign p licR st remap0 imgs = .ok (st1, remap1) →
      st1.images = st.images ++ imgs.map (resolvedImage p licR) ∧
      st1.seen = (imageIds imgs).reverse ++ st.seen ∧
      st1.warnings = st.warnings ∧
      remap1 = (imgs.map (fun i => (i.id, i.id))).reverse ++ remap0 := by
  intro imgs
  induction imgs with
  | nil =>
      intro st remap0 st1 remap1 _ _ hok
      simp only [processImages] at hok
      cases hok
      exact ⟨by simp, by simp [imageIds], rfl, by simp⟩
  | cons img rest ih =>
      intro st remap0 st1 remap1 hfresh hnd hok
      obtain ⟨hnotin, hndtl⟩ :
          (∀ x ∈ rest, ¬ x.id = img.id) ∧ (imageIds rest).Nodup := by
        simpa [imageIds] using hnd
      simp only [processImages] at hok
      cases hstep : processImage reassign p licR st remap0 img with
      | error e => rw [hstep] at hok; exact Except.noConfusion hok
      | ok pr =>
          obtain ⟨st2, remap2⟩ := pr
          rw [hstep] at hok
          obtain ⟨fn, lic, hfn, hlic, hbr⟩ :=
            processImage_cases reassign p licR st remap0 img st2 remap2 hstep
          rcases hbr with ⟨hin, _, _, _⟩ | ⟨hin, _, _, _⟩ | ⟨_, hst, hrm⟩
          · exact absurd hin (hfresh img (List.mem_cons_self _ _))
          · exact absurd hin (hfresh img (List.mem_cons_self _ _))
          · subst hst; subst hrm
            have himg_eq : ({ img with file_name := fn, license := lic } : CocoImage) =
                resolvedImage p licR img := by
              rw [resolveFileName_ok_eq p img.file_name fn hfn,
                resolveLicense_ok_eq licR p img lic hlic]
              rfl
            obtain ⟨h1, h2, h3, h4⟩ := ih
              { st with images := st.images ++ [{ img with file_name := fn, license := lic }],
                        seen := img.id :: st.seen,
                        next := if img.id ≥ st.next then img.id + 1 else st.next }
              ((img.id, img.id) :: remap0) st1 remap1
              (fun x hx => by
                simp only [List.mem_cons, not_or]
                exact ⟨fun he => hnotin x hx he,
                  hfresh x (List.mem_cons_of_mem _ hx)⟩)
              hndtl hok
            refine ⟨?_, ?_, h3, ?_⟩
            · rw [h1, himg_eq]
              simp [List.append_assoc]
            · rw [h2]
              simp [imageIds, List.append_assoc]
            · rw [h4]
              simp [List.append_assoc]

theorem resolveLicense_total (licR : List (Int × Int)) (p : String) (img : CocoImage)
    (h : ∀ l, img.license = some l → (rlookup licR l).isSome) :
    resolveLicense licR p img =
      .ok (img.license.map (fun l => (rlookup licR l).getD l)) := by
  cases himgl : img.license with
  | none => simp [resolveLicense, himgl]
  | some l =>
      have hs := h l himgl
      cases hr : rlookup licR l with
      | none => rw [hr] at hs; simp at hs
      | some v => simp [resolveLicense, himgl, hr]

theorem processImages_ok_refs (reassign : Bool) (p : String) (licR : List (Int × Int)) :
    ∀ (imgs : List CocoImage) (st : ImgState) (remap0 : List (Int × Int))
      (out : ImgState × List (Int × Int)),
      processImages reassign p licR st remap0 imgs = .ok out →
      ∀ x ∈ imgs, (∃ fn, resolveFileName p x.file_name = .ok fn) ∧
        (∀ l, x.license = some l → (rlookup licR l).isSome) := by
  intro imgs
  induction imgs with
  | nil =>
      intro st remap0 out _ x hx
      simp at hx
  | cons img rest ih =>
      intro st remap0 out hok x hx
      simp only [processImages] at hok
      cases hstep : processImage reassign p licR st remap0 img with
      | error e => rw [hstep] at hok; exact Except.noConfusion hok
      | ok pr =>
          rw [hstep] at hok
          rcases List.mem_cons.mp hx with rfl | hx
          · obtain ⟨fn, lic, hfn, hlic, _⟩ :=
              processImage_cases reassign p licR st remap0 x pr.1 pr.2 (by
                rw [hstep])
            refine ⟨⟨fn, hfn⟩, ?_⟩
            intro l hl
            cases hr : rlookup licR l with
            | some v => rfl
            | none =>
                exfalso
                simp only [resolveLicense, hl, hr] at hlic
                exact Except.noConfusion hlic
          · exact ih pr.1 pr.2 out hok x hx

theorem processImages_allDrop (p : String) (licR : List (Int × Int)) :
    ∀ (imgs : List CocoImage) (st : ImgState) (remap0 : List (Int × Int)),
      (∀ x ∈ imgs, x.id ∈ st.seen) →
      (∀ x ∈ imgs, ∃ fn, resolveFileName p x.file_name = .ok fn) →
      (∀ x ∈ imgs, ∀ l, x.license = some l → (rlookup licR l).isSome) →
      processImages false p licR st remap0 imgs =
        .ok ({ st with warnings := st.warnings ++ imgs.map (fun x => (p, x.id)) },
          remap0) := by
  intro imgs
  induction imgs with
  | nil => intro st remap0 _ _ _; simp [processImages]
  | cons img rest ih =>
      intro st remap0 hseen hfn hlic
      obtain ⟨fn, hfn0⟩ := hfn img (List.mem_cons_self _ _)
      have hlt := resolveLicense_total licR p img (hlic img (List.mem_cons_self _ _))
      have hseen0 : img.id ∈ st.seen := hseen img (List.mem_cons_self _ _)
      have hstep : processImage false p licR st remap0 img =
          .ok ({ st with warnings := st.warnings ++ [(p, img.id)] }, remap0) := by
        simp only [processImage, hfn0, hlt, hseen0, ite_true]
        rfl
      simp only [processImages, hstep]
      rw [ih { st with warnings := st.warnings ++ [(p, img.id)] } remap0
        (fun x hx => hseen x (List.mem_cons_of_mem _ hx))
        (fun x hx => hfn x (List.mem_cons_of_mem _ hx))
        (fun x hx => hlic x (List.mem_cons_of_mem _ hx))]
      simp [List.append_assoc]

theorem allAnnIds_cons (a : CocoAnn) (l : List CocoAnn) :
    allAnnIds (a :: l) = annIds a ++ allAnnIds l := by
  simp [allAnnIds]

theorem listMapSelf {β : Type} (f : β → β) :
    ∀ (l : List β), (∀ x ∈ l, f x = x) → l.map f = l := by
  intro l
  induction l with
  | nil => intro _; rfl
  | cons x xs ih =>
      intro h
      simp only [List.map_cons]
      rw [h x (List.mem_cons_self _ _), ih (fun y hy => h y (List.mem_cons_of_mem _ hy))]

theorem processSegments_fresh (path : String) (cR : List (Int × Int)) :
    ∀ (segs : List CocoPanopticSegmentInfo) (seen : List Int) (next : Int)
      (out : List CocoPanopticSegmentInfo × List Int × Int),
      (∀ i ∈ segs.map (·.id), i ∉ seen) → (segs.map (·.id)).Nodup →
      processSegments path cR segs seen next = .ok out →
      out.1 = segs.map (retargetSeg cR) ∧
      out.2.1 = (segs.map (·.id)).reverse ++ seen := by
  intro segs
  induction segs with
  | nil =>
      intro seen next out _ _ hok
      simp only [processSegments] at hok
      cases hok
      exact ⟨rfl, by simp⟩
  | cons seg rest ih =>
      intro seen next out hfresh hnd hok
      obtain ⟨hnotin, hndtl⟩ :
          (∀ x ∈ rest, ¬ x.id = seg.id) ∧ (rest.map (·.id)).Nodup := by
        simpa using hnd
      have hfresh0 : seg.id ∉ seen := hfresh seg.id (by simp)
      simp only [processSegments] at hok
      cases hcat : rlookup cR seg.category_id with
      | none => rw [hcat] at hok; exact Except.noConfusion hok
      | some newCat =>
          rw [hcat] at hok
          cases hrec : processSegments path cR rest
              (resolveId seen next seg.id).2.1 (resolveId seen next seg.id).2.2 with
          | error e => rw [hrec] at hok; exact Except.noConfusion hok
          | ok out' =>
              rw [hrec] at hok
              obtain ⟨rest', seen', next'⟩ := out'
              cases hok
              have hkeep := resolveId_keep seen next seg.id hfresh0
              have hnew := resolveId_newSeen seen next seg.id
              obtain ⟨h1, h2⟩ := ih (resolveId seen next seg.id).2.1
                (resolveId seen next seg.id).2.2 (rest', seen', next')
                (fun i hi => by
                  rw [hnew, hkeep]
                  simp only [List.mem_cons, not_or]
                  refine ⟨?_, hfresh i (by simp [hi])⟩
                  intro he
                  obtain ⟨x, hx, hxid⟩ := List.mem_map.mp hi
                  exact hnotin x hx (hxid.trans he))
                hndtl hrec
              have h1' : rest' = rest.map (retargetSeg cR) := h1
              have h2' : seen' = (rest.map (·.id)).reverse ++
                  (resolveId seen next seg.id).2.1 := h2
              constructor
              · show ({ seg with
                          category_id := newCat,
                          id := (resolveId seen next seg.id).1 } :
                    CocoPanopticSegmentInfo) :: rest' =
                    retargetSeg cR seg :: rest.map (retargetSeg cR)
                rw [h1', hkeep]
                simp [retargetSeg, hcat]
              · show seen' = ((seg :: rest).map (·.id)).reverse ++ seen
                rw [h2', hnew, hkeep]
                simp [List.append_assoc]

theorem processOneAnn_fresh (path : String) (cR iR : List (Int × Int))
    (ast ast1 : AnnState) (a : CocoAnn)
    (hfresh : ∀ i ∈ annIds a, i ∉ ast.seen) (hnd : (annIds a).Nodup)
    (himg : (rlookup iR a.imageId).isSome)
    (hok : processOneAnn path cR iR ast a = .ok ast1) :
    ast1.annotations = ast.annotations ++ [retargetAnn cR iR a] ∧
    ast1.seen = (annIds a).reverse ++ ast.seen := by
  cases hv : rlookup iR a.imageId with
  | none => rw [hv] at himg; simp at himg
  | some v =>
      cases a with
      | KeypointDetection ann =>
          have hf : ann.id ∉ ast.seen := hfresh ann.id (by simp [annIds])
          cases hcat : rlookup cR ann.category_id with
          | none =>
              simp only [processOneAnn, hv, hcat] at hok
              exact Except.noConfusion hok
          | some newCat =>
              simp only [processOneAnn, hv, hcat] at hok
              cases hok
              simp only [CocoAnn.imageId] at hv
              refine ⟨?_, ?_⟩
              · simp [retargetAnn, hv, hcat,
                  resolveId_keep ast.seen ast.next ann.id hf]
              · rw [resolveId_newSeen, resolveId_keep ast.seen ast.next ann.id hf]
                simp [annIds]
      | PanopticSegmentation ann =>
          cases hseg : processSegments path cR ann.segments_info ast.seen ast.next with
          | error e =>
              simp only [processOneAnn, hv, hseg] at hok
              exact Except.noConfusion hok
          | ok out =>
              obtain ⟨segs', seen', next'⟩ := out
              simp only [processOneAnn, hv, hseg] at hok
              cases hok
              simp only [CocoAnn.imageId] at hv
              obtain ⟨h1, h2⟩ := processSegments_fresh path cR ann.segments_info
                ast.seen ast.next (segs', seen', next')
                (by simpa [annIds] using hfresh) (by simpa [annIds] using hnd) hseg
              have h1' : segs' = ann.segments_info.map (retargetSeg cR) := h1
              have h2' : seen' = (ann.segments_info.map (·.id)).reverse ++ ast.seen := h2
              refine ⟨?_, ?_⟩
              · rw [h1']
                simp [retargetAnn, hv]
              · rw [h2']
                simp [annIds]
      | ImageCaptioning ann =>
          have hf : ann.id ∉ ast.seen := hfresh ann.id (by simp [annIds])
          simp only [processOneAnn, hv] at hok
          cases hok
          simp only [CocoAnn.imageId] at hv
          refine ⟨?_, ?_⟩
          · simp [retargetAnn, hv, resolveId_keep ast.seen ast.next ann.id hf]
          · rw [resolveId_newSeen, resolveId_keep ast.seen ast.next ann.id hf]
            simp [annIds]
      | ObjectDetection ann =>
          have hf : ann.id ∉ ast.seen := hfresh ann.id (by simp [annIds])
          cases hcat : rlookup cR ann.category_id with
          | none =>
              simp only [processOneAnn, hv, hcat] at hok
              exact Except.noConfusion hok
          | some newCat =>
              simp only [processOneAnn, hv, hcat] at hok
              cases hok
              simp only [CocoAnn.imageId] at hv
              refine ⟨?_, ?_⟩
              · simp [retargetAnn, hv, hcat,
                  resolveId_keep ast.seen ast.next ann.id hf]
              · rw [resolveId_newSeen, resolveId_keep ast.seen ast.next ann.id hf]
                simp [annIds]
      | DensePose ann =>
          have hf : ann.id ∉ ast.seen := hfresh ann.id (by simp [annIds])
          cases hcat : rlookup cR ann.category_id with
          | none =>
              simp only [processOneAnn, hv, hcat] at hok
              exact Except.noConfusion hok
          | some newCat =>
              simp only [processOneAnn, hv, hcat] at hok
              cases hok
              simp only [CocoAnn.imageId] at hv
              refine ⟨?_, ?_⟩
              · simp [retargetAnn, hv, hcat,
                  resolveId_keep ast.seen ast.next ann.id hf]
              · rw [resolveId_newSeen, resolveId_keep ast.seen ast.next ann.id hf]
                simp [annIds]

theorem processAnns_fresh (path : String) (cR iR : List (Int × Int)) :
    ∀ (anns : List CocoAnn) (ast ast1 : AnnState),
      (∀ i ∈ allAnnIds anns, i ∉ ast.seen) → (allAnnIds anns).Nodup →
      (∀ a ∈ anns, (rlookup iR a.imageId).isSome) →
      processAnns path cR iR ast anns = .ok ast1 →
      ast1.annotations = ast.annotations ++ anns.map (retargetAnn cR iR) ∧
      ast1.seen = (allAnnIds anns).reverse ++ ast.seen := by
  intro anns
  induction anns with
  | nil =>
      intro ast ast1 _ _ _ hok
      simp only [processAnns] at hok
      cases hok
      exact ⟨by simp, by simp [allAnnIds]⟩
  | cons a as_ ih =>
      intro ast ast1 hfresh hnd himgs hok
      rw [allAnnIds_cons] at hfresh hnd
      obtain ⟨hndh, hndt, hdisj⟩ := List.nodup_append.mp hnd
      simp only [processAnns] at hok
      cases hone : processOneAnn path cR iR ast a with
      | error e => rw [hone] at hok; exact Except.noConfusion hok
      | ok ast2 =>
          rw [hone] at hok
          obtain ⟨g1, g2⟩ := processOneAnn_fresh path cR iR ast ast2 a
            (fun i hi => hfresh i (List.mem_append_left _ hi)) hndh
            (himgs a (List.mem_cons_self _ _)) hone
          obtain ⟨h1, h2⟩ := ih ast2 ast1
            (fun i hi => by
              rw [g2]
              simp only [List.mem_append, List.mem_reverse, not_or]
              exact ⟨fun hh => hdisj hh hi, hfresh i (List.mem_append_right _ hi)⟩)
            hndt (fun b hb => himgs b (List.mem_cons_of_mem _ hb)) hok
          refine ⟨?_, ?_⟩
          · rw [h1, g1]
            simp [List.append_assoc]
          · rw [h2, g2, allAnnIds_cons]
            simp [List.reverse_append, List.append_assoc]

theorem processAnns_skipAll (path : String) (cR iR : List (Int × Int)) :
    ∀ (anns : List CocoAnn) (ast : AnnState),
      (∀ a ∈ anns, rlookup iR a.imageId = none) →
      processAnns path cR iR ast anns = .ok ast := by
  intro anns
  induction anns with
  | nil => intro ast _; rfl
  | cons a as_ ih =>
      intro ast hnone
      simp only [processAnns,
        processOneAnn_skip path cR iR ast a (hnone a (List.mem_cons_self _ _))]
      exact ih ast (fun b hb => hnone b (List.mem_cons_of_mem _ hb))

theorem retargetSeg_id (cR : List (Int × Int)) (s : CocoPanopticSegmentInfo)
    (h : rlookup cR s.category_id = some s.category_id) :
    retargetSeg cR s = s := by
  simp [retargetSeg, h]

theorem retargetAnn_id (cR iR : List (Int × Int)) (a : CocoAnn)
    (hcat : ∀ c ∈ annCatRefs a, rlookup cR c = some c)
    (himg : rlookup iR (CocoAnn.imageId a) = some (CocoAnn.imageId a)) :
    retargetAnn cR iR a = a := by
  cases a with
  | KeypointDetection ann =>
      have := hcat ann.category_id (by simp [annCatRefs])
      simp only [CocoAnn.imageId] at himg
      simp [retargetAnn, himg, this]
  | PanopticSegmentation ann =>
      simp only [CocoAnn.imageId] at himg
      simp only [retargetAnn, himg, Option.getD_some]
      rw [listMapSelf (retargetSeg cR) ann.segments_info
        (fun s hs => retargetSeg_id cR s
          (hcat s.category_id (by
            simp only [annCatRefs]
            exact List.mem_map.mpr ⟨s, hs, rfl⟩)))]
  | ImageCaptioning ann =>
      simp only [CocoAnn.imageId] at himg
      simp [retargetAnn, himg]
  | ObjectDetection ann =>
      have := hcat ann.category_id (by simp [annCatRefs])
      simp only [CocoAnn.imageId] at himg
      simp [retargetAnn, himg, this]
  | DensePose ann =>
      have := hcat ann.category_id (by simp [annCatRefs])
      simp only [CocoAnn.imageId] at himg
      simp [retargetAnn, himg, this]

theorem listMapCongr {β γ : Type} (f g : β → γ) :
    ∀ (l : List β), (∀ x ∈ l, f x = g x) → l.map f = l.map g := by
  intro l
  induction l with
  | nil => intro _; rfl
  | cons x xs ih =>
      intro h
      simp only [List.map_cons]
      rw [h x (List.mem_cons_self _ _), ih (fun y hy => h y (List.mem_cons_of_mem _ hy))]

theorem rlookup_mapIdPairs {β : Type} (g : β → Int) (l : List β) (k : Int)
    (hk : k ∈ l.map g) :
    rlookup ((l.map (fun x => (g x, g x))).reverse ++ []) k = some k := by
  rw [List.append_nil]
  have hmm : l.map (fun x => (g x, g x)) = (l.map g).map (fun i => (i, i)) := by
    simp [List.map_map, Function.comp]
  rw [hmm]
  exact rlookup_idPairs_reverse (l.map g) k hk

/-- A license-remap identity fact under fresh acceptance: every declared
license id maps to itself. -/
theorem processLicenses_identity (st : ReconState CocoLicense) (f : CocoFile)
    (hmiss : ∀ c ∈ licsOf f, ∀ e ∈ st.set, licStructEq e c = false)
    (hfresh : ∀ c ∈ licsOf f, c.id ∉ st.seen)
    (hnd : (licIdsOf f).Nodup)
    (hpw : List.Pairwise (fun a b => licStructEq a b = false) (licsOf f)) :
    (processLicenses st f.licenses).1.set = st.set ++ licsOf f ∧
    (processLicenses st f.licenses).1.seen = (licIdsOf f).reverse ++ st.seen ∧
    (∀ c ∈ licIdsOf f, rlookup (processLicenses st f.licenses).2 c = some c) := by
  cases hcf : f.licenses with
  | none =>
      refine ⟨by simp [processLicenses, licsOf, hcf], by simp [processLicenses, licIdsOf, hcf], ?_⟩
      intro c hc
      simp [licIdsOf, hcf] at hc
  | some ls =>
      have hls : licsOf f = ls := by simp [licsOf, hcf]
      have hids : licIdsOf f = ls.map CocoLicense.lid := by
        simp [licIdsOf, hcf, CocoLicense.lid]
      rw [hls] at hmiss hfresh hpw
      rw [hids] at hnd
      have hfr := reconcileList_fresh licStructEq CocoLicense.lid CocoLicense.setId
        ls st [] hmiss (fun c hc => hfresh c hc) hnd hpw
      refine ⟨?_, ?_, ?_⟩
      · simp only [processLicenses, hfr, hls]
      · simp only [processLicenses, hfr, hids]
      · intro c hc
        rw [hids] at hc
        simp only [processLicenses, hfr]
        exact rlookup_mapIdPairs CocoLicense.lid ls c hc

/-- The category analogue of `processLicenses_identity`. -/
theorem processCategories_identity (st : ReconState CocoCategory) (f : CocoFile)
    (hmiss : ∀ c ∈ catsOf f, ∀ e ∈ st.set, catStructEq e c = false)
    (hfresh : ∀ c ∈ catsOf f, CocoCategory.cid c ∉ st.seen)
    (hnd : (catIdsOf f).Nodup)
    (hpw : List.Pairwise (fun a b => catStructEq a b = false) (catsOf f)) :
    (processCategories st f.categories).1.set = st.set ++ catsOf f ∧
    (processCategories st f.categories).1.seen = (catIdsOf f).reverse ++ st.seen ∧
    (∀ c ∈ catIdsOf f, rlookup (processCategories st f.categories).2 c = some c) := by
  cases hcf : f.categories with
  | none =>
      refine ⟨by simp [processCategories, catsOf, hcf], by simp [processCategories, catIdsOf, hcf], ?_⟩
      intro c hc
      simp [catIdsOf, hcf] at hc
  | some cs =>
      have hcs : catsOf f = cs := by simp [catsOf, hcf]
      have hids : catIdsOf f = cs.map CocoCategory.cid := by simp [catIdsOf, hcf]
      rw [hcs] at hmiss hfresh hpw
      rw [hids] at hnd
      have hfr := reconcileList_fresh catStructEq CocoCategory.cid CocoCategory.setId
        cs st [] hmiss (fun c hc => hfresh c hc) hnd hpw
      refine ⟨?_, ?_, ?_⟩
      · simp only [processCategories, hfr, hcs]
      · simp only [processCategories, hfr, hids]
      · intro c hc
        rw [hids] at hc
        simp only [processCategories, hfr]
        exact rlookup_mapIdPairs CocoCategory.cid cs c hc

theorem processFile_identity (reassign : Bool) (p : String) (f : CocoFile)
    (st st1 : MergeState)
    (hcmiss : ∀ c ∈ catsOf f, ∀ e ∈ st.cats.set, catStructEq e c = false)
    (hcfresh : ∀ c ∈ catsOf f, CocoCategory.cid c ∉ st.cats.seen)
    (hcnd : (catIdsOf f).Nodup)
    (hcpw : List.Pairwise (fun a b => catStructEq a b = false) (catsOf f))
    (hlmiss : ∀ c ∈ licsOf f, ∀ e ∈ st.lics.set, licStructEq e c = false)
    (hlfresh : ∀ c ∈ licsOf f, c.id ∉ st.lics.seen)
    (hlnd : (licIdsOf f).Nodup)
    (hlpw : List.Pairwise (fun a b => licStructEq a b = false) (licsOf f))
    (himfresh : ∀ x ∈ f.images, x.id ∉ st.imgs.seen)
    (himnd : (imageIds f.images).Nodup)
    (hanfresh : ∀ i ∈ allAnnIds f.annotations, i ∉ st.anns.seen)
    (hannd : (allAnnIds f.annotations).Nodup)
    (himgref : ∀ a ∈ f.annotations, CocoAnn.imageId a ∈ imageIds f.images)
    (hcatref : ∀ a ∈ f.annotations, ∀ c ∈ annCatRefs a, c ∈ catIdsOf f)
    (hlicref : ∀ i ∈ f.images, ∀ l, i.license = some l → l ∈ licIdsOf f)
    (hok : processFile reassign st (p, f) = .ok st1) :
    st1.cats.set = st.cats.set ++ catsOf f ∧
    st1.cats.seen = (catIdsOf f).reverse ++ st.cats.seen ∧
    st1.lics.set = st.lics.set ++ licsOf f ∧
    st1.lics.seen = (licIdsOf f).reverse ++ st.lics.seen ∧
    st1.imgs.images = st.imgs.images ++ f.images.map (resolvedImageName p) ∧
    st1.imgs.seen = (imageIds f.images).reverse ++ st.imgs.seen ∧
    st1.anns.annotations = st.anns.annotations ++ f.annotations ∧
    st1.anns.seen = (allAnnIds f.annotations).reverse ++ st.anns.seen := by
  obtain ⟨hc1, hc2, hc3⟩ := processCategories_identity st.cats f hcmiss hcfresh hcnd hcpw
  obtain ⟨hl1, hl2, hl3⟩ := processLicenses_identity st.lics f hlmiss hlfresh hlnd hlpw
  simp only [processFile] at hok
  cases himgs : processImages reassign p (processLicenses st.lics f.licenses).2
      st.imgs [] f.images with
  | error e =>
      simp only [himgs] at hok
      exact Except.noConfusion hok
  | ok pr =>
      obtain ⟨imgs1, imgRemap⟩ := pr
      simp only [himgs] at hok
      cases hanns : processAnns p (processCategories st.cats f.categories).2
          imgRemap st.anns f.annotations with
      | error e =>
          simp only [hanns] at hok
          exact Except.noConfusion hok
      | ok anns1 =>
          simp only [hanns] at hok
          cases hok
          obtain ⟨hI1, hI2, _, hI4⟩ := processImages_fresh reassign p
            (processLicenses st.lics f.licenses).2 f.images st.imgs []
            imgs1 imgRemap himfresh himnd himgs
          have himgEq : f.images.map (resolvedImage p (processLicenses st.lics f.licenses).2) =
              f.images.map (resolvedImageName p) := by
            refine listMapCongr _ _ f.images ?_
            intro x hx
            unfold resolvedImage resolvedImageName
            cases hxl : x.license with
            | none => simp
            | some l =>
                have := hl3 l (hlicref x hx l hxl)
                simp [this]
          have himgLook : ∀ a ∈ f.annotations,
              rlookup imgRemap (CocoAnn.imageId a) = some (CocoAnn.imageId a) := by
            intro a ha
            rw [hI4]
            exact rlookup_mapIdPairs (fun i => i.id) f.images (CocoAnn.imageId a)
              (by simpa [imageIds] using himgref a ha)
          obtain ⟨hA1, hA2⟩ := processAnns_fresh p
            (processCategories st.cats f.categories).2 imgRemap f.annotations
            st.anns anns1 hanfresh hannd
            (fun a ha => by rw [himgLook a ha]; rfl) hanns
          have hannEq : f.annotations.map
              (retargetAnn (processCategories st.cats f.categories).2 imgRemap) =
              f.annotations := by
            refine listMapSelf _ f.annotations ?_
            intro a ha
            exact retargetAnn_id _ _ a
              (fun c hc => hc3 c (hcatref a ha c hc)) (himgLook a ha)
          refine ⟨hc1, hc2, hl1, hl2, ?_, hI2, ?_, hA2⟩
          · rw [hI1, himgEq]
          · rw [hA1, hannEq]

/-- Input file of the C7 counterexample: one image with a relative
`file_name`, merged from a source path that has a parent directory. -/
def c7file : CocoFile :=
  { images := [{ id := 1, width := 4, height := 5, file_name := "img.jpg",
                 license := none, rest := 0 }],
    annotations := [], categories := none, licenses := none }

/-- C7 counterexample: merging the well-formed single file `c7file` (source
path `d/f.json`) rewrites the image's relative `file_name` from `img.jpg`
to `d/img.jpg`, so the output images are not content-equal to the input
images as the claim states. -/
theorem cocomerge_C7_cex :
    WellFormedFile c7file ∧
    (runMerge false [("d/f.json", c7file)]).map CocoFile.images =
      .ok [{ id := 1, width := 4, height := 5, file_name := "d/img.jpg",
             license := none, rest := 0 }] ∧
    c7file.images = [{ id := 1, width := 4, height := 5, file_name := "img.jpg",
                       license := none, rest := 0 }] ∧
    ({ id := 1, width := 4, height := 5, file_name := "d/img.jpg",
       license := none, rest := 0 } : CocoImage) ≠
      { id := 1, width := 4, height := 5, file_name := "img.jpg",
        license := none, rest := 0 } := by
  refine ⟨?_, by decide, by decide, by decide⟩
  unfold WellFormedFile
  refine ⟨?_, ?_, ?_, ?_, ?_, ?_, ?_, ?_, ?_⟩ <;> decide

/-- C7 (amended): merging a single well-formed file alone yields output
whose annotations, categories and licenses are exactly the input's with all
ids unchanged, and whose images are the input's images with only the
`file_name` resolved onto the parent directory of the source file path
(absolute names unchanged). -/
theorem cocomerge_C7 (reassign : Bool) (p : String) (f : CocoFile) (out : CocoFile)
    (hwf : WellFormedFile f)
    (hok : runMerge reassign [(p, f)] = .ok out) :
    out.images = f.images.map (resolvedImageName p) ∧
    out.annotations = f.annotations ∧
    out.categories = some (catsOf f) ∧
    out.licenses = some (licsOf f) := by
  obtain ⟨himnd, hcnd, hlnd, hannd, hcpw, hlpw, himgref, hcatref, hlicref⟩ := hwf
  unfold runMerge runMergeFrom at hok
  cases hpf : processFile reassign initState (p, f) with
  | error e =>
      simp only [mergeFrom, hpf] at hok
      exact Except.noConfusion hok
  | ok st1 =>
      simp only [mergeFrom, hpf] at hok
      have hout : out = assembleFile st1 := by
        simp only [Except.map] at hok
        exact (Except.ok.inj hok).symm
      obtain ⟨g1, _, g3, _, g5, _, g7, _⟩ := processFile_identity reassign p f
        initState st1
        (by intro c hc e he; simp [initState] at he)
        (by intro c hc; simp [initState])
        hcnd hcpw
        (by intro c hc e he; simp [initState] at he)
        (by intro c hc; simp [initState])
        hlnd hlpw
        (by intro x hx; simp [initState])
        himnd
        (by intro i hi; simp [initState])
        hannd himgref hcatref hlicref hpf
      rw [hout]
      refine ⟨?_, ?_, ?_, ?_⟩
      · show st1.imgs.images = _
        rw [g5]
        simp [initState]
      · show st1.anns.annotations = _
        rw [g7]
        simp [initState]
      · show some st1.cats.set = _
        rw [g1]
        simp [initState]
      · show some st1.lics.set = _
        rw [g3]
        simp [initState]

/-- Well-formed input file of the C7 witness. -/
def c7wit : CocoFile :=
  { images := [{ id := 1, width := 4, height := 5, file_name := "a.jpg",
                 license := some 4, rest := 3 }],
    annotations := [.ObjectDetection { id := 2, image_id := 1, category_id := 0, rest := 6 }],
    categories := some [.ObjectDetection { id := 0, name := "cat", supercategory := "s" }],
    licenses := some [{ id := 4, name := "mit", url := "u" }] }

/-- Output of merging `c7wit` alone. -/
def c7witOut : CocoFile :=
  { images := [{ id := 1, width := 4, height := 5, file_name := "d/a.jpg",
                 license := some 4, rest := 3 }],
    annotations := [.ObjectDetection { id := 2, image_id := 1, category_id := 0, rest := 6 }],
    categories := some [.ObjectDetection { id := 0, name := "cat", supercategory := "s" }],
    licenses := some [{ id := 4, name := "mit", url := "u" }] }

/-- Witness for the amended C7 at a concrete input: the single-file merge of
`c7wit` keeps annotations, categories and licenses identical and only
resolves the image file name. -/
theorem cocomerge_C7_witness :
    c7witOut.images = c7wit.images.map (resolvedImageName "d/f.json") ∧
    c7witOut.annotations = c7wit.annotations ∧
    c7witOut.categories = some (catsOf c7wit) ∧
    c7witOut.licenses = some (licsOf c7wit) :=
  cocomerge_C7 false "d/f.json" c7wit c7witOut
    (by
      unfold WellFormedFile
      refine ⟨?_, ?_, ?_, ?_, ?_, ?_, ?_, ?_, ?_⟩ <;> decide)
    (by decide)

/-- First input file of the C8 counterexample: a single license with id 1. -/
def c8a : CocoFile :=
  { images := [], annotations := [], categories := none,
    licenses := some [{ id := 1, name := "mit", url := "u" }] }

/-- Second input file of the C8 counterexample: a structurally identical
license under the different id 2 (so all id spaces are disjoint). -/
def c8b : CocoFile :=
  { images := [], annotations := [], categories := none,
    licenses := some [{ id := 2, name := "mit", url := "u" }] }

/-- C8 counterexample: the two well-formed files `c8a` and `c8b` have
disjoint id spaces in every namespace (their id lists are `[1]` and `[2]`
for licenses and empty elsewhere), yet the merged output contains one
license, not the sum two, because structural deduplication collapses the
two licenses; the id 2 is not preserved in the output. -/
theorem cocomerge_C8_cex :
    WellFormedFile c8a ∧ WellFormedFile c8b ∧
    catIdsOf c8a = [] ∧ catIdsOf c8b = [] ∧
    licIdsOf c8a = [1] ∧ licIdsOf c8b = [2] ∧
    imageIds c8a.images = [] ∧ imageIds c8b.images = [] ∧
    allAnnIds c8a.annotations = [] ∧ allAnnIds c8b.annotations = [] ∧
    (runMerge false [("a.json", c8a), ("b.json", c8b)]).map
      (fun o => (o.licenses.getD []).length) = .ok 1 ∧
    (licsOf c8a).length + (licsOf c8b).length = 2 := by
  refine ⟨?_, ?_, by decide, by decide, by decide, by decide, by decide,
    by decide, by decide, by decide, by decide, by decide⟩ <;>
  · unfold WellFormedFile
    refine ⟨?_, ?_, ?_, ?_, ?_, ?_, ?_, ?_, ?_⟩ <;> decide

/-- C8 (amended): merging two well-formed files whose id spaces are
disjoint in every namespace and which share no structurally identical
category or license yields output whose entity count in every namespace is
the sum of the input counts, with every id preserved: categories, licenses
and annotations are the concatenations of the inputs, and the output image
ids are the concatenation of the input image ids. -/
theorem cocomerge_C8 (reassign : Bool) (p1 p2 : String) (f1 f2 : CocoFile)
    (out : CocoFile)
    (hwf1 : WellFormedFile f1) (hwf2 : WellFormedFile f2)
    (hd : DisjointFiles f1 f2)
    (hok : runMerge reassign [(p1, f1), (p2, f2)] = .ok out) :
    out.categories = some (catsOf f1 ++ catsOf f2) ∧
    out.licenses = some (licsOf f1 ++ licsOf f2) ∧
    imageIds out.images = imageIds f1.images ++ imageIds f2.images ∧
    out.annotations = f1.annotations ++ f2.annotations ∧
    out.images.length = f1.images.length + f2.images.length ∧
    out.annotations.length = f1.annotations.length + f2.annotations.length ∧
    (out.categories.getD []).length = (catsOf f1).length + (catsOf f2).length ∧
    (out.licenses.getD []).length = (licsOf f1).length + (licsOf f2).length := by
  obtain ⟨him1, hc1, hl1, han1, hcp1, hlp1, hir1, hcr1, hlr1⟩ := hwf1
  obtain ⟨him2, hc2, hl2, han2, hcp2, hlp2, hir2, hcr2, hlr2⟩ := hwf2
  obtain ⟨hdc, hdl, hdi, hda, hdcs, hdls⟩ := hd
  unfold runMerge runMergeFrom at hok
  cases hpf1 : processFile reassign initState (p1, f1) with
  | error e =>
      simp only [mergeFrom, hpf1] at hok
      exact Except.noConfusion hok
  | ok st1 =>
      simp only [mergeFrom, hpf1] at hok
      cases hpf2 : processFile reassign st1 (p2, f2) with
      | error e =>
          simp only [hpf2] at hok
          exact Except.noConfusion hok
      | ok st2 =>
          simp only [hpf2] at hok
          have hout : out = assembleFile st2 := by
            simp only [Except.map] at hok
            exact (Except.ok.inj hok).symm
          obtain ⟨g1, g2, g3, g4, g5, g6, g7, g8⟩ := processFile_identity reassign p1 f1
            initState st1
            (by intro c hc e he; simp [initState] at he)
            (by intro c hc; simp [initState])
            hc1 hcp1
            (by intro c hc e he; simp [initState] at he)
            (by intro c hc; simp [initState])
            hl1 hlp1
            (by intro x hx; simp [initState])
            him1
            (by intro i hi; simp [initState])
            han1 hir1 hcr1 hlr1 hpf1
          obtain ⟨k1, _, k3, _, k5, _, k7, _⟩ := processFile_identity reassign p2 f2
            st1 st2
            (by
              intro c hc e he
              rw [g1] at he
              simp [initState] at he
              exact hdcs e he c hc)
            (by
              intro c hc hmem
              rw [g2] at hmem
              simp [initState] at hmem
              exact hdc _ hmem (List.mem_map.mpr ⟨c, hc, rfl⟩))
            hc2 hcp2
            (by
              intro c hc e he
              rw [g3] at he
              simp [initState] at he
              exact hdls e he c hc)
            (by
              intro c hc hmem
              rw [g4] at hmem
              simp [initState] at hmem
              exact hdl _ hmem (List.mem_map.mpr ⟨c, hc, rfl⟩))
            hl2 hlp2
            (by
              intro x hx hmem
              rw [g6] at hmem
              simp [initState] at hmem
              exact hdi _ hmem (List.mem_map.mpr ⟨x, hx, rfl⟩))
            him2
            (by
              intro i hi hmem
              rw [g8] at hmem
              simp [initState] at hmem
              exact hda _ hmem hi)
            han2 hir2 hcr2 hlr2 hpf2
          have himgs : st2.imgs.images =
              f1.images.map (resolvedImageName p1) ++
              f2.images.map (resolvedImageName p2) := by
            rw [k5, g5]
            simp [initState]
          have hanns : st2.anns.annotations = f1.annotations ++ f2.annotations := by
            rw [k7, g7]
            simp [initState]
          have hcats : st2.cats.set = catsOf f1 ++ catsOf f2 := by
            rw [k1, g1]
            simp [initState]
          have hlics : st2.lics.set = licsOf f1 ++ licsOf f2 := by
            rw [k3, g3]
            simp [initState]
          have himgIds : ∀ (q : String) (l : List CocoImage),
              imageIds (l.map (resolvedImageName q)) = imageIds l := by
            intro q l
            simp only [imageIds, List.map_map]
            exact listMapCongr _ _ l (fun x _ => rfl)
          rw [hout]
          refine ⟨?_, ?_, ?_, ?_, ?_, ?_, ?_, ?_⟩
          · show some st2.cats.set = _
            rw [hcats]
          · show some st2.lics.set = _
            rw [hlics]
          · show imageIds st2.imgs.images = _
            rw [himgs]
            show imageIds (_ ++ _) = _
            simp only [imageIds, List.map_append]
            rw [show (List.map (resolvedImageName p1) f1.images).map (fun x => x.id) =
                imageIds (List.map (resolvedImageName p1) f1.images) from rfl,
              show (List.map (resolvedImageName p2) f2.images).map (fun x => x.id) =
                imageIds (List.map (resolvedImageName p2) f2.images) from rfl,
              himgIds p1 f1.images, himgIds p2 f2.images]
            simp [imageIds]
          · show st2.anns.annotations = _
            exact hanns
          · show st2.imgs.images.length = _
            rw [himgs]
            simp
          · show st2.anns.annotations.length = _
            rw [hanns]
            simp
          · show (Option.getD (some st2.cats.set) []).length = _
            rw [Option.getD_some, hcats]
            simp
          · show (Option.getD (some st2.lics.set) []).length = _
            rw [Option.getD_some, hlics]
            simp

/-- First input file of the C8 witness. -/
def c8w1 : CocoFile :=
  { images := [{ id := 1, width := 4, height := 5, file_name := "a.jpg",
                 license := some 4, rest := 3 }],
    annotations := [.ObjectDetection { id := 2, image_id := 1, category_id := 0, rest := 6 }],
    categories := some [.ObjectDetection { id := 0, name := "cat", supercategory := "s" }],
    licenses := some [{ id := 4, name := "mit", url := "u" }] }

/-- Second input file of the C8 witness: disjoint from `c8w1` in every id
namespace and structurally distinct in categories and licenses. -/
def c8w2 : CocoFile :=
  { images := [{ id := 10, width := 7, height := 8, file_name := "b.jpg",
                 license := some 14, rest := 9 }],
    annotations := [.ObjectDetection { id := 12, image_id := 10, category_id := 20, rest := 11 }],
    categories := some [.ObjectDetection { id := 20, name := "dog", supercategory := "s" }],
    licenses := some [{ id := 14, name := "apl", url := "v" }] }

/-- Output of merging `c8w1` then `c8w2`. -/
def c8wOut : CocoFile :=
  { images := [{ id := 1, width := 4, height := 5, file_name := "d/a.jpg",
                 license := some 4, rest := 3 },
               { id := 10, width := 7, height := 8, file_name := "e/b.jpg",
                 license := some 14, rest := 9 }],
    annotations := [.ObjectDetection { id := 2, image_id := 1, category_id := 0, rest := 6 },
                    .ObjectDetection { id := 12, image_id := 10, category_id := 20, rest := 11 }],
    categories := some [.ObjectDetection { id := 0, name := "cat", supercategory := "s" },
                        .ObjectDetection { id := 20, name := "dog", supercategory := "s" }],
    licenses := some [{ id := 4, name := "mit", url := "u" },
                      { id := 14, name := "apl", url := "v" }] }

/-- Witness for the amended C8 at the concrete disjoint files `c8w1`, `c8w2`:
both are well formed, their id spaces are disjoint, and the merged output
concatenates every namespace with all ids preserved. -/
theorem cocomerge_C8_witness :
    WellFormedFile c8w1 ∧ WellFormedFile c8w2 ∧ DisjointFiles c8w1 c8w2 ∧
    c8wOut.categories = some (catsOf c8w1 ++ catsOf c8w2) ∧
    c8wOut.licenses = some (licsOf c8w1 ++ licsOf c8w2) ∧
    imageIds c8wOut.images = imageIds c8w1.images ++ imageIds c8w2.images ∧
    c8wOut.annotations = c8w1.annotations ++ c8w2.annotations ∧
    c8wOut.images.length = c8w1.images.length + c8w2.images.length := by
  have hwf1 : WellFormedFile c8w1 := by
    unfold WellFormedFile
    refine ⟨?_, ?_, ?_, ?_, ?_, ?_, ?_, ?_, ?_⟩ <;> decide
  have hwf2 : WellFormedFile c8w2 := by
    unfold WellFormedFile
    refine ⟨?_, ?_, ?_, ?_, ?_, ?_, ?_, ?_, ?_⟩ <;> decide
  have hd : DisjointFiles c8w1 c8w2 := by
    unfold DisjointFiles
    refine ⟨?_, ?_, ?_, ?_, ?_, ?_⟩ <;> decide
  obtain ⟨h1, h2, h3, h4, h5, _⟩ :=
    cocomerge_C8 false "d/f.json" "e/g.json" c8w1 c8w2 c8wOut hwf1 hwf2 hd (by decide)
  exact ⟨hwf1, hwf2, hd, h1, h2, h3, h4, h5⟩

/-- C9 (implicit): merging the same well-formed file twice with reassignment
disabled yields the same images, annotations, categories and licenses as
merging it once: every category and license of the second copy hits the
first copy's canonical entry, every image of the second copy is dropped as
an id collision, and every annotation of the second copy is silently
discarded because its image's remap entry is absent. -/
theorem cocomerge_C9 (p : String) (f : CocoFile) (out1 : CocoFile)
    (hwf : WellFormedFile f)
    (hok1 : runMerge false [(p, f)] = .ok out1) :
    ∃ out2, runMerge false [(p, f), (p, f)] = .ok out2 ∧
      out2.images = out1.images ∧
      out2.annotations = out1.annotations ∧
      out2.categories = out1.categories ∧
      out2.licenses = out1.licenses := by
  obtain ⟨him, hc, hl, han, hcp, hlp, hir, hcr, hlr⟩ := hwf
  unfold runMerge runMergeFrom at hok1
  cases hpf1 : processFile false initState (p, f) with
  | error e =>
      simp only [mergeFrom, hpf1] at hok1
      exact Except.noConfusion hok1
  | ok st1 =>
      simp only [mergeFrom, hpf1, Except.map] at hok1
      have hout1 : assembleFile st1 = out1 := Except.ok.inj hok1
      obtain ⟨g1, g2, g3, g4, g5, g6, g7, g8⟩ := processFile_identity false p f
        initState st1
        (by intro c hc e he; simp [initState] at he)
        (by intro c hc; simp [initState])
        hc hcp
        (by intro c hc e he; simp [initState] at he)
        (by intro c hc; simp [initState])
        hl hlp
        (by intro x hx; simp [initState])
        him
        (by intro i hi; simp [initState])
        han hir hcr hlr hpf1
      -- every image's file name resolves, from the first copy's success
      have href : ∀ x ∈ f.images, ∃ fn, resolveFileName p x.file_name = .ok fn := by
        intro x hx
        have h := hpf1
        simp only [processFile] at h
        cases himgs1 : processImages false p
            (processLicenses initState.lics f.licenses).2 initState.imgs []
            f.images with
        | error e =>
            rw [himgs1] at h
            exact Except.noConfusion h
        | ok pr1 =>
            exact (processImages_ok_refs false p _ f.images initState.imgs []
              pr1 himgs1 x hx).1
      -- second copy's categories all hit the first copy's canonical entries
      have hcatState : (processCategories st1.cats f.categories).1 = st1.cats := by
        cases hcf : f.categories with
        | none => simp [processCategories]
        | some cs =>
            have hcs : catsOf f = cs := by simp [catsOf, hcf]
            have hhit : ∀ c ∈ cs, ∃ e ∈ st1.cats.set, catStructEq e c = true := by
              intro c hcm
              refine ⟨c, ?_, catStructEq_refl c⟩
              rw [g1, hcs]
              simpa [initState] using hcm
            simp only [processCategories]
            exact (reconcileList_hit catStructEq CocoCategory.cid
              CocoCategory.setId cs st1.cats [] hhit).1
      -- second copy's licenses all hit, and the remap covers every license ref
      have hlicState : (processLicenses st1.lics f.licenses).1 = st1.lics ∧
          (∀ x ∈ f.images, ∀ l, x.license = some l →
            (rlookup (processLicenses st1.lics f.licenses).2 l).isSome) := by
        cases hlf : f.licenses with
        | none =>
            refine ⟨by simp [processLicenses], ?_⟩
            intro x hx l hxl
            have := hlr x hx l hxl
            simp [licIdsOf, hlf] at this
        | some ls =>
            have hls : licsOf f = ls := by simp [licsOf, hlf]
            have hhit : ∀ c ∈ ls, ∃ e ∈ st1.lics.set, licStructEq e c = true := by
              intro c hcm
              refine ⟨c, ?_, licStructEq_refl c⟩
              rw [g3, hls]
              simpa [initState] using hcm
            obtain ⟨h1, h2, _⟩ := reconcileList_hit licStructEq CocoLicense.lid
              CocoLicense.setId ls st1.lics [] hhit
            refine ⟨by simp only [processLicenses]; exact h1, ?_⟩
            intro x hx l hxl
            have hmem : l ∈ licIdsOf f := hlr x hx l hxl
            rw [licIdsOf, hlf] at hmem
            simp only [Option.getD_some] at hmem
            obtain ⟨c, hcm, hcl⟩ := List.mem_map.mp hmem
            have := h2 c hcm
            simp only [processLicenses]
            rw [show CocoLicense.lid c = l from hcl] at this
            exact this
      obtain ⟨hlicSt, hliccov⟩ := hlicState
      -- second copy's images all collide and are dropped, giving an empty remap
      have himgs2 : processImages false p (processLicenses st1.lics f.licenses).2
          st1.imgs [] f.images =
          .ok ({ st1.imgs with
                   warnings := st1.imgs.warnings ++
                     f.images.map (fun x => (p, x.id)) }, []) :=
        processImages_allDrop p _ f.images st1.imgs []
          (fun x hx => by
            rw [g6]
            simp [initState, imageIds]
            exact ⟨x, hx, rfl⟩)
          href hliccov
      -- second copy's annotations are all skipped (image remap is empty)
      have hanns2 : processAnns p (processCategories st1.cats f.categories).2 []
          st1.anns f.annotations = .ok st1.anns :=
        processAnns_skipAll p _ [] f.annotations st1.anns (fun a _ => rfl)
      have hpf2 : processFile false st1 (p, f) = .ok
          { cats := (processCategories st1.cats f.categories).1,
            lics := (processLicenses st1.lics f.licenses).1,
            imgs := { st1.imgs with
                        warnings := st1.imgs.warnings ++
                          f.images.map (fun x => (p, x.id)) },
            anns := st1.anns } := by
        simp only [processFile, himgs2, hanns2]
      refine ⟨assembleFile
        { cats := (processCategories st1.cats f.categories).1,
          lics := (processLicenses st1.lics f.licenses).1,
          imgs := { st1.imgs with
                      warnings := st1.imgs.warnings ++
                        f.images.map (fun x => (p, x.id)) },
          anns := st1.anns }, ?_, ?_, ?_, ?_, ?_⟩
      · unfold runMerge runMergeFrom
        simp only [mergeFrom, hpf1, hpf2, Except.map]
      · rw [← hout1]
        rfl
      · rw [← hout1]
        rfl
      · rw [← hout1]
        show some (processCategories st1.cats f.categories).1.set = _
        rw [hcatState]
        rfl
      · rw [← hout1]
        show some (processLicenses st1.lics f.licenses).1.set = _
        rw [hlicSt]
        rfl

/-- Input file of the C9 witness. -/
def c9wit : CocoFile :=
  { images := [{ id := 1, width := 4, height := 5, file_name := "a.jpg",
                 license := some 4, rest := 3 }],
    annotations := [.ObjectDetection { id := 2, image_id := 1, category_id := 0, rest := 6 }],
    categories := some [.ObjectDetection { id := 0, name := "cat", supercategory := "s" }],
    licenses := some [{ id := 4, name := "mit", url := "u" }] }

/-- Output of merging `c9wit` once. -/
def c9witOut : CocoFile :=
  { images := [{ id := 1, width := 4, height := 5, file_name := "d/a.jpg",
                 license := some 4, rest := 3 }],
    annotations := [.ObjectDetection { id := 2, image_id := 1, category_id := 0, rest := 6 }],
    categories := some [.ObjectDetection { id := 0, name := "cat", supercategory := "s" }],
    licenses := some [{ id := 4, name := "mit", url := "u" }] }

/-- Witness for C9 at the concrete file `c9wit`: it is well formed, and
merging it twice with reassignment disabled yields the same images,
annotations, categories and licenses as merging it once. -/
theorem cocomerge_C9_witness :
    WellFormedFile c9wit ∧
    ∃ out2, runMerge false [("d/f.json", c9wit), ("d/f.json", c9wit)] = .ok out2 ∧
      out2.images = c9witOut.images ∧
      out2.annotations = c9witOut.annotations ∧
      out2.categories = c9witOut.categories ∧
      out2.licenses = c9witOut.licenses := by
  have hwf : WellFormedFile c9wit := by
    unfold WellFormedFile
    refine ⟨?_, ?_, ?_, ?_, ?_, ?_, ?_, ?_, ?_⟩ <;> decide
  exact ⟨hwf, cocomerge_C9 "d/f.json" c9wit c9witOut hwf (by decide)⟩

-- Order preservation ----------------------------------------------------------

theorem processOneAnn_orderKey (path : String) (cR iR : List (Int × Int))
    (st st' : AnnState) (a : CocoAnn)
    (hok : processOneAnn path cR iR st a = .ok st') :
    st' = st ∨
    (∃ a', st'.annotations = st.annotations ++ [a'] ∧ annKey a' = annKey a) := by
  cases himg : rlookup iR a.imageId with
  | none =>
      rw [processOneAnn_skip path cR iR st a himg] at hok
      exact Or.inl (Except.ok.inj hok).symm
  | some v =>
      refine Or.inr ?_
      cases a with
      | KeypointDetection ann =>
          cases hcat : rlookup cR ann.category_id with
          | none =>
              simp only [processOneAnn, himg, hcat] at hok
              exact Except.noConfusion hok
          | some newCat =>
              simp only [processOneAnn, himg, hcat] at hok
              cases hok
              exact ⟨_, rfl, rfl⟩
      | PanopticSegmentation ann =>
          cases hseg : processSegments path cR ann.segments_info st.seen st.next with
          | error e =>
              simp only [processOneAnn, himg, hseg] at hok
              exact Except.noConfusion hok
          | ok out =>
              obtain ⟨segs', seen', next'⟩ := out
              simp only [processOneAnn, himg, hseg] at hok
              cases hok
              refine ⟨_, rfl, ?_⟩
              simp only [annKey]
              rw [processSegments_keyPres path cR ann.segments_info st.seen st.next
                segs' seen' next' hseg]
      | ImageCaptioning ann =>
          simp only [processOneAnn, himg] at hok
          cases hok
          exact ⟨_, rfl, rfl⟩
      | ObjectDetection ann =>
          cases hcat : rlookup cR ann.category_id with
          | none =>
              simp only [processOneAnn, himg, hcat] at hok
              exact Except.noConfusion hok
          | some newCat =>
              simp only [processOneAnn, himg, hcat] at hok
              cases hok
              exact ⟨_, rfl, rfl⟩
      | DensePose ann =>
          cases hcat : rlookup cR ann.category_id with
          | none =>
              simp only [processOneAnn, himg, hcat] at hok
              exact Except.noConfusion hok
          | some newCat =>
              simp only [processOneAnn, himg, hcat] at hok
              cases hok
              exact ⟨_, rfl, rfl⟩

theorem processAnns_order (path : String) (cR iR : List (Int × Int)) :
    ∀ (anns : List CocoAnn) (st st' : AnnState),
      processAnns path cR iR st anns = .ok st' →
      ∃ B, st'.annotations = st.annotations ++ B ∧
        (B.map annKey).Sublist (anns.map annKey) := by
  intro anns
  induction anns with
  | nil =>
      intro st st' hok
      simp only [processAnns] at hok
      cases hok
      exact ⟨[], by simp, by simp⟩
  | cons a as_ ih =>
      intro st st' hok
      simp only [processAnns] at hok
      cases hone : processOneAnn path cR iR st a with
      | error e =>
          rw [hone] at hok
          exact Except.noConfusion hok
      | ok st1 =>
          rw [hone] at hok
          obtain ⟨B, hB, hsub⟩ := ih st1 st' hok
          rcases processOneAnn_orderKey path cR iR st st1 a hone with
            rfl | ⟨a', hlist, hkey⟩
          · refine ⟨B, hB, ?_⟩
            simp only [List.map_cons]
            exact hsub.cons _
          · refine ⟨a' :: B, ?_, ?_⟩
            · rw [hB, hlist]
              simp
            · simp only [List.map_cons, hkey]
              exact hsub.cons₂ _

theorem processImages_order (reassign : Bool) (path : String)
    (licR : List (Int × Int)) :
    ∀ (imgs : List CocoImage) (st : ImgState) (remap : List (Int × Int))
      (st1 : ImgState) (remap1 : List (Int × Int)),
      processImages reassign path licR st remap imgs = .ok (st1, remap1) →
      ∃ B, st1.images = st.images ++ B ∧
        (B.map imgKey).Sublist (imgs.map imgKey) := by
  intro imgs
  induction imgs with
  | nil =>
      intro st remap st1 remap1 hok
      simp only [processImages] at hok
      cases hok
      exact ⟨[], by simp, by simp⟩
  | cons img rest ih =>
      intro st remap st1 remap1 hok
      simp only [processImages] at hok
      cases hstep : processImage reassign path licR st remap img with
      | error e =>
          rw [hstep] at hok
          exact Except.noConfusion hok
      | ok p =>
          obtain ⟨st2, remap2⟩ := p
          rw [hstep] at hok
          obtain ⟨fn, lic, hfn, hlic, hbr⟩ :=
            processImage_cases reassign path licR st remap img st2 remap2 hstep
          obtain ⟨B, hB, hsub⟩ := ih st2 remap2 st1 remap1 hok
          rcases hbr with ⟨_, _, hst, _⟩ | ⟨_, _, hst, _⟩ | ⟨_, hst, _⟩ <;> subst hst
          · refine ⟨{ img with file_name := fn, license := lic, id := st.next } :: B,
              ?_, ?_⟩
            · rw [hB]
              simp
            · simp only [List.map_cons]
              exact hsub.cons₂ _
          · refine ⟨B, hB, ?_⟩
            simp only [List.map_cons]
            exact hsub.cons _
          · refine ⟨{ img with file_name := fn, license := lic } :: B, ?_, ?_⟩
            · rw [hB]
              simp
            · simp only [List.map_cons]
              exact hsub.cons₂ _

theorem processFile_order (reassign : Bool) (st st' : MergeState)
    (pf : String × CocoFile)
    (hok : processFile reassign st pf = .ok st') :
    ∃ BI BA, st'.imgs.images = st.imgs.images ++ BI ∧
      (BI.map imgKey).Sublist (pf.2.images.map imgKey) ∧
      st'.anns.annotations = st.anns.annotations ++ BA ∧
      (BA.map annKey).Sublist (pf.2.annotations.map annKey) := by
  simp only [processFile] at hok
  cases himg : processImages reassign pf.1 (processLicenses st.lics pf.2.licenses).2
      st.imgs [] pf.2.images with
  | error e =>
      simp only [himg] at hok
      exact Except.noConfusion hok
  | ok pr =>
      obtain ⟨imgs', imgRemap⟩ := pr
      simp only [himg] at hok
      cases hann : processAnns pf.1 (processCategories st.cats pf.2.categories).2
          imgRemap st.anns pf.2.annotations with
      | error e =>
          simp only [hann] at hok
          exact Except.noConfusion hok
      | ok anns' =>
          simp only [hann] at hok
          cases hok
          obtain ⟨BI, hBI, hsubI⟩ := processImages_order reassign pf.1 _
            pf.2.images st.imgs [] imgs' imgRemap himg
          obtain ⟨BA, hBA, hsubA⟩ := processAnns_order pf.1 _ imgRemap
            pf.2.annotations st.anns anns' hann
          exact ⟨BI, BA, hBI, hsubI, hBA, hsubA⟩

theorem mergeFrom_order (reassign : Bool) :
    ∀ (files : List (String × CocoFile)) (st st1 : MergeState),
      mergeFrom reassign st files = .ok st1 →
      ∃ (iblocks : List (List CocoImage)) (ablocks : List (List CocoAnn)),
        st1.imgs.images = st.imgs.images ++ iblocks.flatten ∧
        st1.anns.annotations = st.anns.annotations ++ ablocks.flatten ∧
        List.Forall₂ (fun B pf => (List.map imgKey B).Sublist
          (List.map imgKey pf.2.images)) iblocks files ∧
        List.Forall₂ (fun B pf => (List.map annKey B).Sublist
          (List.map annKey pf.2.annotations)) ablocks files := by
  intro files
  induction files with
  | nil =>
      intro st st1 hok
      simp only [mergeFrom] at hok
      cases hok
      exact ⟨[], [], by simp, by simp, List.Forall₂.nil, List.Forall₂.nil⟩
  | cons pf rest ih =>
      intro st st1 hok
      simp only [mergeFrom] at hok
      cases hpf : processFile reassign st pf with
      | error e =>
          rw [hpf] at hok
          exact Except.noConfusion hok
      | ok st2 =>
          rw [hpf] at hok
          obtain ⟨BI, BA, hBI, hsubI, hBA, hsubA⟩ :=
            processFile_order reassign st st2 pf hpf
          obtain ⟨ibs, abs_, h1, h2, h3, h4⟩ := ih st2 st1 hok
          refine ⟨BI :: ibs, BA :: abs_, ?_, ?_, ?_, ?_⟩
          · rw [h1, hBI]
            simp [List.append_assoc]
          · rw [h2, hBA]
            simp [List.append_assoc]
          · exact List.Forall₂.cons hsubI h3
          · exact List.Forall₂.cons hsubA h4

/-- C10 (implicit): the merged output preserves input order — the output
image list is the concatenation, in file order, of one block per input file,
each block an in-order selection of that file's images with the pass-through
content unchanged; and the output annotation list likewise.  No merge step
reorders, duplicates, or interleaves entries out of this order. -/
theorem cocomerge_C10 (reassign : Bool) (files : List (String × CocoFile))
    (out : CocoFile) (hok : runMerge reassign files = .ok out) :
    ∃ (iblocks : List (List CocoImage)) (ablocks : List (List CocoAnn)),
      out.images = iblocks.flatten ∧
      out.annotations = ablocks.flatten ∧
      List.Forall₂ (fun B pf => (List.map imgKey B).Sublist
        (List.map imgKey pf.2.images)) iblocks files ∧
      List.Forall₂ (fun B pf => (List.map annKey B).Sublist
        (List.map annKey pf.2.annotations)) ablocks files := by
  unfold runMerge runMergeFrom at hok
  cases hmf : mergeFrom reassign initState files with
  | error e =>
      rw [hmf] at hok
      exact Except.noConfusion hok
  | ok st1 =>
      rw [hmf] at hok
      have hout : out = assembleFile st1 := by
        simp only [Except.map] at hok
        exact (Except.ok.inj hok).symm
      obtain ⟨ibs, abs_, h1, h2, h3, h4⟩ :=
        mergeFrom_order reassign files initState st1 hmf
      refine ⟨ibs, abs_, ?_, ?_, h3, h4⟩
      · rw [hout]
        show st1.imgs.images = _
        rw [h1]
        simp [initState]
      · rw [hout]
        show st1.anns.annotations = _
        rw [h2]
        simp [initState]

/-- First input file of the C10 witness. -/
def c10f1 : CocoFile :=
  { images := [{ id := 1, width := 4, height := 5, file_name := "a.jpg",
                 license := none, rest := 100 },
               { id := 2, width := 6, height := 7, file_name := "b.jpg",
                 license := none, rest := 200 }],
    annotations := [.ImageCaptioning { id := 3, image_id := 1, caption := "one" }],
    categories := none, licenses := none }

/-- Second input file of the C10 witness: its first image collides with the
first file's image id 2 and is dropped, together with its annotation. -/
def c10f2 : CocoFile :=
  { images := [{ id := 2, width := 8, height := 9, file_name := "c.jpg",
                 license := none, rest := 300 },
               { id := 4, width := 10, height := 11, file_name := "d.jpg",
                 license := none, rest := 400 }],
    annotations := [.ImageCaptioning { id := 5, image_id := 2, caption := "two" },
                    .ImageCaptioning { id := 6, image_id := 4, caption := "three" }],
    categories := none, licenses := none }

/-- Output of the C10 witness merge. -/
def c10out : CocoFile :=
  { images := [{ id := 1, width := 4, height := 5, file_name := "d/a.jpg",
                 license := none, rest := 100 },
               { id := 2, width := 6, height := 7, file_name := "d/b.jpg",
                 license := none, rest := 200 },
               { id := 4, width := 10, height := 11, file_name := "e/d.jpg",
                 license := none, rest := 400 }],
    annotations := [.ImageCaptioning { id := 3, image_id := 1, caption := "one" },
                    .ImageCaptioning { id := 6, image_id := 4, caption := "three" }],
    categories := some [], licenses := some [] }

/-- Witness for C10 at a concrete two-file input in which the second file's
first image collides and is dropped: the output decomposes into one in-order
block per input file. -/
theorem cocomerge_C10_witness :
    ∃ (iblocks : List (List CocoImage)) (ablocks : List (List CocoAnn)),
      c10out.images = iblocks.flatten ∧
      c10out.annotations = ablocks.flatten ∧
      List.Forall₂ (fun B pf => (List.map imgKey B).Sublist
        (List.map imgKey pf.2.images)) iblocks
        [("d/f.json", c10f1), ("e/g.json", c10f2)] ∧
      List.Forall₂ (fun B pf => (List.map annKey B).Sublist
        (List.map annKey pf.2.annotations)) ablocks
        [("d/f.json", c10f1), ("e/g.json", c10f2)] :=
  cocomerge_C10 false [("d/f.json", c10f1), ("e/g.json", c10f2)] c10out (by decide)
